import Mathlib

/-!
Concurrency-control APIs: thread pool and resource manager.

A shallow embedding of `src/thread_pool/*.cpp`, `include/thread_pool/*.h` and
`include/resource_manager/*.h`.

Each C++ object becomes a record of its data members.  A member function
becomes a pure function from the object (and its arguments) to the result and
the updated object.  A call that would suspend the caller (a condition-variable
wait whose predicate is false, a mutex that cannot be taken) is an explicit
`blocked` outcome instead of a result.
-/

set_option autoImplicit false

/-! ## `TaskQueue` (`src/thread_pool/task_queue.cpp`) -/

/-- The data members of `TaskQueue` that carry state: the `std::queue<Task>`
(front of the queue = head of the list) and `stop_flag`.  The mutex and the
condition variable only serialise the member functions, each of which is one
atomic transition here. -/
structure TaskQueue (Task : Type) where
  queue : List Task
  stop_flag : Bool
deriving DecidableEq, Repr

/-- What a call of `TaskQueue::pop` does. -/
inductive PopOutcome (Task : Type) where
  /-- `pop` returned `true` and stored `task` in the out-parameter. -/
  | task (t : Task) (q : TaskQueue Task)
  /-- `pop` returned `false`: the queue is stopped and empty. -/
  | endOfWork (q : TaskQueue Task)
  /-- The wait predicate `!queue.empty() || stop_flag` is false: the caller
  stays suspended on the condition variable. -/
  | blocked
deriving DecidableEq, Repr

namespace TaskQueue

variable {Task : Type}

/-- `TaskQueue::TaskQueue()`: empty queue, `stop_flag(false)`. -/
def new : TaskQueue Task := { queue := [], stop_flag := false }

/-- `TaskQueue::push`: `if (stop_flag) return false; queue.push(task); return true;`. -/
def push (q : TaskQueue Task) (t : Task) : Bool × TaskQueue Task :=
  if q.stop_flag then (false, q)
  else (true, { q with queue := q.queue ++ [t] })

/-- `TaskQueue::pop`: wait until `!queue.empty() || stop_flag`; then
`if (stop_flag && queue.empty()) return false;` else move out `queue.front()`,
`queue.pop()` and `return true`.  (The last `[]` case cannot be reached: past
the wait an empty queue is a stopped one.) -/
def pop (q : TaskQueue Task) : PopOutcome Task :=
  if !(!q.queue.isEmpty || q.stop_flag) then PopOutcome.blocked
  else if q.stop_flag && q.queue.isEmpty then PopOutcome.endOfWork q
  else
    match q.queue with
    | [] => PopOutcome.blocked
    | t :: rest => PopOutcome.task t { q with queue := rest }

/-- `TaskQueue::stop`: `stop_flag = true`. -/
def stop (q : TaskQueue Task) : TaskQueue Task := { q with stop_flag := true }

/-- `TaskQueue::stopped`. -/
def stopped (q : TaskQueue Task) : Bool := q.stop_flag

/-- `TaskQueue::size`. -/
def size (q : TaskQueue Task) : Nat := q.queue.length

/-- A caller pushing the tasks of `ts` one after the other: the return values
in call order and the final queue. -/
def pushAll : TaskQueue Task → List Task → List Bool × TaskQueue Task
  | q, [] => ([], q)
  | q, t :: ts =>
    let r := q.push t
    let rs := pushAll r.2 ts
    (r.1 :: rs.1, rs.2)

/-- A caller calling `pop` `n` times in a row: for each call that returned, the
return value and the task stored in the out-parameter (if any), in call order;
then the final queue.  `none` when one of the calls never returns. -/
def popN : Nat → TaskQueue Task → Option (List (Bool × Option Task) × TaskQueue Task)
  | 0, q => some ([], q)
  | n + 1, q =>
    match q.pop with
    | PopOutcome.blocked => none
    | PopOutcome.endOfWork q1 =>
      (popN n q1).map fun r => ((false, none) :: r.1, r.2)
    | PopOutcome.task t q1 =>
      (popN n q1).map fun r => ((true, some t) :: r.1, r.2)

end TaskQueue

/-! ## Failures and task execution -/

/-- What a C++ `throw` can raise, as far as the handlers in this repository
tell things apart: an object of a class derived from `std::exception`
(`catch (const std::exception&)` matches it) or anything else. -/
inductive Failure where
  | stdException (what : String)
  | other (tag : Nat)
deriving DecidableEq, Repr

/-- The result of calling a `std::function<void()>` in a world of type `W`
(everything the task can read and write): it returns, or it raises. -/
inductive ExecResult (W : Type) where
  | returned (w : W)
  | raised (e : Failure) (w : W)
deriving DecidableEq, Repr

/-! ## `WorkerThread` (`src/thread_pool/worker_thread.cpp`) -/

/-- Where the thread of a worker stands inside `WorkerThread::run`. -/
inductive WorkerPc (Task : Type) where
  /-- About to evaluate the loop condition `while (running)`. -/
  | loopHead
  /-- Inside `task_queue->pop(task)`. -/
  | popping
  /-- `pop` returned `true`; about to call `task()` inside the `try` block. -/
  | executing (t : Task)
  /-- `run` has returned: the thread has finished. -/
  | exited
deriving DecidableEq, Repr

/-- The data members of `WorkerThread`: the `running` flag and the thread,
given by its position in `run`.  The `task_queue` member points to the queue
of the owning pool. -/
structure WorkerThread (Task : Type) where
  running : Bool
  pc : WorkerPc Task
deriving DecidableEq, Repr

namespace WorkerThread

variable {Task : Type}

/-- `WorkerThread::WorkerThread`: `running(true)`, and the thread is started
on `run`. -/
def new : WorkerThread Task := { running := true, pc := WorkerPc.loopHead }

/-- `WorkerThread::stop`: `running = false`. -/
def stop (w : WorkerThread Task) : WorkerThread Task := { w with running := false }

/-- Whether `thread.join()` returns: the thread has finished. -/
def finished (w : WorkerThread Task) : Bool :=
  match w.pc with
  | WorkerPc.exited => true
  | _ => false

/-- The task a worker has taken from the queue and not yet called. -/
def held (w : WorkerThread Task) : List Task :=
  match w.pc with
  | WorkerPc.executing t => [t]
  | _ => []

end WorkerThread

/-! ## `ThreadPool` (`src/thread_pool/thread_pool.cpp`, `include/thread_pool/thread_pool.h`) -/

/-- The data members of `ThreadPool`. -/
structure ThreadPool (Task : Type) where
  workers : List (WorkerThread Task)
  task_queue : TaskQueue Task
  stop : Bool
deriving DecidableEq, Repr

/-- The shared state behind a `std::packaged_task` / `std::future` pair. -/
inductive SharedState (R : Type) where
  | pending
  | value (v : R)
  | failure (e : Failure)
deriving DecidableEq, Repr

/-- The shared states allocated so far, by address. -/
abbrev FutureHeap (R : Type) := List (SharedState R)

/-- The closure `[task](){ (*task)(); }` that `submit` pushes: the
`std::packaged_task<return_type()>` it captures, which holds the bound call
`std::bind(f, args...)` and the address of its shared state. -/
structure PackagedTask (R : Type) where
  fn : Unit → Except Failure R
  cell : Nat

/-- The `std::future<return_type>` returned by `submit`. -/
structure Future where
  cell : Nat
deriving DecidableEq, Repr

/-- What `future.get()` does. -/
inductive GetResult (R : Type) where
  | value (v : R)
  | raised (e : Failure)
  /-- The shared state is not ready: the caller waits. -/
  | blocked
deriving DecidableEq, Repr

namespace PackagedTask

variable {R : Type}

/-- Calling the queued closure, that is `std::packaged_task::operator()`: the
stored call runs, and its value or whatever it throws is stored in the shared
state.  A task whose shared state is already satisfied (or missing) throws
`std::future_error`, a `std::exception`. -/
def invoke (t : PackagedTask R) (h : FutureHeap R) : ExecResult (FutureHeap R) :=
  match h[t.cell]? with
  | some SharedState.pending =>
    match t.fn () with
    | Except.ok v => ExecResult.returned (h.set t.cell (SharedState.value v))
    | Except.error e => ExecResult.returned (h.set t.cell (SharedState.failure e))
  | some _ => ExecResult.raised (Failure.stdException "promise already satisfied") h
  | none => ExecResult.raised (Failure.stdException "no state") h

end PackagedTask

namespace Future

variable {R : Type}

/-- `std::future::get`: waits for the shared state, then returns the value or
rethrows the stored exception. -/
def get (f : Future) (h : FutureHeap R) : GetResult R :=
  match h[f.cell]? with
  | some (SharedState.value v) => GetResult.value v
  | some (SharedState.failure e) => GetResult.raised e
  | _ => GetResult.blocked

end Future

namespace ThreadPool

variable {Task : Type}

/-- The constructor's loop `for (i = 0; i < num_threads; ++i)
workers.emplace_back(std::make_unique<WorkerThread>(task_queue))`, with
`remaining = num_threads - i`. -/
def spawnWorkers : Nat → List (WorkerThread Task) → List (WorkerThread Task)
  | 0, ws => ws
  | remaining + 1, ws => spawnWorkers remaining (ws ++ [WorkerThread.new])

/-- `ThreadPool::ThreadPool(size_t num_threads)`. -/
def new (num_threads : Nat) : ThreadPool Task :=
  { workers := spawnWorkers num_threads [], task_queue := TaskQueue.new, stop := false }

/-- The constructor called without an argument: the default argument is
`std::thread::hardware_concurrency()`, a value of the platform. -/
def newDefault (hardware_concurrency : Nat) : ThreadPool Task :=
  new hardware_concurrency

/-- `ThreadPool::size`. -/
def size (p : ThreadPool Task) : Nat := p.workers.length

/-- `ThreadPool::stopped`. -/
def stopped (p : ThreadPool Task) : Bool := p.stop

/-- The message of the `std::runtime_error` thrown by `submit`. -/
def stoppedMessage : String := "ThreadPool está parado, não pode aceitar tarefas"

/-- `ThreadPool::submit(f, args...)`: a packaged task over `std::bind(f, args...)`
is allocated with a fresh shared state, its future is taken, and the closure
calling it is pushed; if `push` returns `false`, `std::runtime_error` is thrown
(and unwinding releases the packaged task and the future, so the heap is as
before).  The result is the future or the failure raised, with the pool and the
heap after the call. -/
def submit {A R : Type} (p : ThreadPool (PackagedTask R)) (h : FutureHeap R)
    (f : A → Except Failure R) (args : A) :
    Except Failure Future × ThreadPool (PackagedTask R) × FutureHeap R :=
  let task : PackagedTask R := { fn := fun _ => f args, cell := h.length }
  let result : Future := { cell := h.length }
  let pushed := p.task_queue.push task
  if !pushed.1 then
    (Except.error (Failure.stdException stoppedMessage), { p with task_queue := pushed.2 }, h)
  else
    (Except.ok result, { p with task_queue := pushed.2 }, h ++ [SharedState.pending])

end ThreadPool

/-! ## A pool under teardown: the threads of `~ThreadPool` and of the workers -/

/-- Where the thread running `ThreadPool::~ThreadPool` stands. -/
inductive DtorPc where
  /-- About to call `task_queue->stop()`: teardown begins. -/
  | stopQueue
  /-- In the first loop, about to call `worker->stop()` on worker `i`. -/
  | stopWorkers (i : Nat)
  /-- In the second loop, about to call `worker->join()` on worker `i`. -/
  | joinWorkers (i : Nat)
  /-- The destructor body has returned. -/
  | returned
deriving DecidableEq, Repr

/-- A pool together with the threads acting on it.  `world` is what the tasks
read and write; `executed` records, in order, the tasks on which a worker has
made the call `task()`; `terminated` is set once an exception has left `run`,
which ends the process (`std::terminate`). -/
structure PoolSystem (Task W : Type) where
  pool : ThreadPool Task
  world : W
  executed : List Task
  dtor : DtorPc
  terminated : Bool

/-- The threads that take steps. -/
inductive Actor where
  | destructor
  | worker (i : Nat)
deriving DecidableEq, Repr

namespace PoolSystem

variable {Task W : Type}

/-- The state in which the destructor of `pool` is entered. -/
def teardownStart (pool : ThreadPool Task) (world : W) : PoolSystem Task W :=
  { pool := pool, world := world, executed := [], dtor := DtorPc.stopQueue,
    terminated := false }

/-- Worker `i` moves to position `pc`. -/
def setPc (s : PoolSystem Task W) (i : Nat) (w : WorkerThread Task) (pc : WorkerPc Task) :
    PoolSystem Task W :=
  { s with pool := { s.pool with workers := s.pool.workers.set i { w with pc := pc } } }

/-- One step of the thread of worker `i` in `WorkerThread::run`:
`while (running) { if (task_queue->pop(task)) { try { task(); } catch (const
std::exception& e) { ... } } else break; }`. -/
def workerStep (exec : Task → W → ExecResult W) (i : Nat) (s : PoolSystem Task W) :
    PoolSystem Task W :=
  match s.pool.workers[i]? with
  | none => s
  | some w =>
    match w.pc with
    | WorkerPc.loopHead =>
      if w.running then s.setPc i w WorkerPc.popping else s.setPc i w WorkerPc.exited
    | WorkerPc.popping =>
      match s.pool.task_queue.pop with
      | PopOutcome.blocked => s
      | PopOutcome.endOfWork q =>
        { s with pool := { s.pool with task_queue := q } }.setPc i w WorkerPc.exited
      | PopOutcome.task t q =>
        { s with pool := { s.pool with task_queue := q } }.setPc i w (WorkerPc.executing t)
    | WorkerPc.executing t =>
      match exec t s.world with
      | ExecResult.returned world =>
        { s with world := world, executed := s.executed ++ [t] }.setPc i w WorkerPc.loopHead
      | ExecResult.raised (Failure.stdException _) world =>
        { s with world := world, executed := s.executed ++ [t] }.setPc i w WorkerPc.loopHead
      | ExecResult.raised (Failure.other _) world =>
        { s with world := world, executed := s.executed ++ [t],
                 terminated := true }.setPc i w WorkerPc.exited
    | WorkerPc.exited => s

/-- One step of the thread in `ThreadPool::~ThreadPool`: `task_queue->stop();`
then `for (auto& worker : workers) worker->stop();` then
`for (auto& worker : workers) worker->join();`.  A `join` on a worker whose
thread has not finished does not return: no step. -/
def dtorStep (s : PoolSystem Task W) : PoolSystem Task W :=
  match s.dtor with
  | DtorPc.stopQueue =>
    { s with pool := { s.pool with task_queue := s.pool.task_queue.stop },
             dtor := DtorPc.stopWorkers 0 }
  | DtorPc.stopWorkers i =>
    match s.pool.workers[i]? with
    | some w =>
      { s with pool := { s.pool with workers := s.pool.workers.set i w.stop },
               dtor := DtorPc.stopWorkers (i + 1) }
    | none => { s with dtor := DtorPc.joinWorkers 0 }
  | DtorPc.joinWorkers i =>
    match s.pool.workers[i]? with
    | some w => if w.finished then { s with dtor := DtorPc.joinWorkers (i + 1) } else s
    | none => { s with dtor := DtorPc.returned }
  | DtorPc.returned => s

/-- One step of the system: the scheduler lets `a` move.  Nothing moves once
the process has been terminated. -/
def step (exec : Task → W → ExecResult W) (a : Actor) (s : PoolSystem Task W) :
    PoolSystem Task W :=
  if s.terminated then s
  else
    match a with
    | Actor.destructor => dtorStep s
    | Actor.worker i => workerStep exec i s

/-- The system after the scheduler has let the threads of `sched` move, in
that order. -/
def run (exec : Task → W → ExecResult W) : List Actor → PoolSystem Task W → PoolSystem Task W
  | [], s => s
  | a :: sched, s => run exec sched (step exec a s)

/-- The tasks taken from the queue by some worker and not yet called. -/
def heldTasks (s : PoolSystem Task W) : List Task :=
  s.pool.workers.flatMap WorkerThread.held

end PoolSystem

namespace PoolSystem

variable {Task W : Type}

/-- Every task the system still knows of: called, held by a worker, or queued. -/
def allTasks (s : PoolSystem Task W) : List Task :=
  s.executed ++ s.heldTasks ++ s.pool.task_queue.queue

/-- The workers the destructor has joined so far have finished. -/
def JoinedFinished (s : PoolSystem Task W) : Prop :=
  match s.dtor with
  | DtorPc.joinWorkers i =>
    ∀ (j : Nat) (w : WorkerThread Task),
      j < i → s.pool.workers[j]? = some w → w.finished = true
  | DtorPc.returned =>
    ∀ (j : Nat) (w : WorkerThread Task), s.pool.workers[j]? = some w → w.finished = true
  | _ => True

/-- No call of a task raises anything but a `std::exception`. -/
def OnlyStdFailures (exec : Task → W → ExecResult W) : Prop :=
  ∀ t w k w1, exec t w ≠ ExecResult.raised (Failure.other k) w1

end PoolSystem

/-! ## The end of teardown: the members of the pool are destroyed -/

/-- The message of the `std::future_error` stored in an abandoned shared state. -/
def brokenPromise : Failure := Failure.stdException "broken promise"

/-- The queued closure is destroyed without having been called: with it goes
the last owner of the `std::packaged_task`, whose destructor abandons the
shared state: a state that is not ready gets `std::future_error`
(`broken_promise`) stored in it. -/
def PackagedTask.abandon {R : Type} (t : PackagedTask R) (h : FutureHeap R) : FutureHeap R :=
  match h[t.cell]? with
  | some SharedState.pending => h.set t.cell (SharedState.failure brokenPromise)
  | _ => h

/-- What is left once the destructor call of a pool is complete: the tasks that
were called, the tasks that were destroyed without having been called, and the
world. -/
structure TornDown (Task W : Type) where
  executed : List Task
  discarded : List Task
  world : W

/-- After the body of `~ThreadPool` the members are destroyed: the `workers`
(each `~WorkerThread` calls `stop()` and `join()`, which has nothing left to
wait for) and the owners of the `TaskQueue`, so the queue is destroyed and with
it, front to back, the tasks still in it; `drop` is what destroying a task that
was never called does to the world.  `none` while the body has not returned. -/
def PoolSystem.destroyMembers {Task W : Type} (drop : Task → W → W) (s : PoolSystem Task W) :
    Option (TornDown Task W) :=
  match s.dtor with
  | DtorPc.returned =>
    some { executed := s.executed,
           discarded := s.pool.task_queue.queue,
           world := s.pool.task_queue.queue.foldl (fun w t => drop t w) s.world }
  | _ => none

/-! ## A pool of one worker with one submitted task

The pool of `ThreadPoolSingleThreadTest.PoolSingleThread` after its first
`submit`, with a callable that adds one to its argument. -/

/-- `ThreadPool single_thread_pool(1)` followed by one `submit`: the result of
`submit`, the pool and the heap of shared states. -/
def singleThreadSubmit :
    Except Failure Future × ThreadPool (PackagedTask Nat) × FutureHeap Nat :=
  ThreadPool.submit (ThreadPool.new 1) [] (fun n : Nat => Except.ok (n + 1)) 41

/-- The destructor of that pool is entered while the task is still queued. -/
def singleThreadTeardown : PoolSystem (PackagedTask Nat) (FutureHeap Nat) :=
  PoolSystem.teardownStart singleThreadSubmit.2.1 singleThreadSubmit.2.2

/-- A schedule in which the destructor stops the queue and the worker before
the worker evaluates its loop condition. -/
def stopFirstSchedule : List Actor :=
  [Actor.destructor, Actor.destructor, Actor.destructor, Actor.worker 0,
   Actor.destructor, Actor.destructor]

/-- A schedule in which the worker runs the queue dry before the destructor
stops it. -/
def drainFirstSchedule : List Actor :=
  [Actor.destructor, Actor.worker 0, Actor.worker 0, Actor.worker 0, Actor.worker 0,
   Actor.worker 0, Actor.destructor, Actor.destructor, Actor.destructor, Actor.destructor]

/-! ## Guards and `SharedResource` (`include/resource_manager/lock_types.h`,
`include/resource_manager/shared_resource.h`) -/

/-- The state of a `std::shared_mutex`: how many shared owners it has and
whether it has an exclusive owner. -/
structure SharedMutex where
  readers : Nat
  writer : Bool
deriving DecidableEq, Repr

namespace SharedMutex

/-- A mutex nobody owns. -/
def free : SharedMutex := { readers := 0, writer := false }

/-- `lock_shared()`, called by the constructor of `std::shared_lock`: taken
unless there is an exclusive owner (`none`: the caller waits). -/
def lock_shared (m : SharedMutex) : Option SharedMutex :=
  if m.writer then none else some { m with readers := m.readers + 1 }

/-- `lock()`, called by the constructor of `std::unique_lock`: taken when there
is no owner of either kind (`none`: the caller waits). -/
def lock (m : SharedMutex) : Option SharedMutex :=
  if m.writer || m.readers != 0 then none else some { m with writer := true }

end SharedMutex

/-- `ReadLock<T>`: the `std::shared_ptr<T>` to the value (`R` is the type of
such pointers); its `std::shared_lock` member owns a shared hold on the mutex
of the resource it was made from. -/
structure ReadLock (R : Type) where
  resource : R
deriving DecidableEq, Repr

/-- `WriteLock<T>`: the `std::shared_ptr<T>` to the value; its
`std::unique_lock` member owns the exclusive hold on the mutex of the resource
it was made from. -/
structure WriteLock (R : Type) where
  resource : R
deriving DecidableEq, Repr

/-- `ReadLock::operator*`: `*resource`, where `mem` gives the value each
pointer points to. -/
def ReadLock.deref {R T : Type} (mem : R → T) (g : ReadLock R) : T := mem g.resource

/-- `WriteLock::operator*`: `*resource`. -/
def WriteLock.deref {R T : Type} (mem : R → T) (g : WriteLock R) : T := mem g.resource

/-- `SharedResource<T>`: the pointer to the value and the mutex. -/
structure SharedResource (R : Type) where
  resource : R
  mutex : SharedMutex
deriving DecidableEq, Repr

namespace SharedResource

variable {R : Type}

/-- `SharedResource::SharedResource(resource)`: the mutex starts free. -/
def new (resource : R) : SharedResource R := { resource := resource, mutex := SharedMutex.free }

/-- `SharedResource::lock_read`: `ReadLock<T>(resource, mutex)`, the guard and
the resource with the hold taken; `none` when the caller has to wait. -/
def lock_read (sr : SharedResource R) : Option (ReadLock R × SharedResource R) :=
  match sr.mutex.lock_shared with
  | none => none
  | some m => some ({ resource := sr.resource }, { sr with mutex := m })

/-- `SharedResource::lock_write`: `WriteLock<T>(resource, mutex)`. -/
def lock_write (sr : SharedResource R) : Option (WriteLock R × SharedResource R) :=
  match sr.mutex.lock with
  | none => none
  | some m => some ({ resource := sr.resource }, { sr with mutex := m })

/-- `SharedResource::get`. -/
def get (sr : SharedResource R) : R := sr.resource

end SharedResource

/-! ## `ResourceManager` (`include/resource_manager/resource_manager.h`) -/

/-- What a call of `get_read_access` / `get_write_access` does: it returns a
guard, it throws, or it waits for the mutex of the resource. -/
inductive AccessResult (G : Type) where
  | granted (guard : G)
  | raised (e : Failure)
  | blocked
deriving DecidableEq, Repr

/-- `ResourceManager<Key, Resource>`: the `std::unordered_map` from keys to
resources, a finite map with unique keys.  Every member function holds
`resources_mutex` from its first statement to its return, so a call is one
atomic transition and the mutex is free between calls. -/
structure ResourceManager (Key R : Type) where
  resources : AList (fun _ : Key => SharedResource R)

namespace ResourceManager

variable {Key R : Type} [DecidableEq Key] [ToString Key]

/-- `ResourceManager() = default`: an empty map. -/
def new : ResourceManager Key R := { resources := ∅ }

/-- The `std::runtime_error("Recurso não encontrado: " + std::to_string(key))`
thrown on a failed lookup. -/
def notFound (key : Key) : Failure :=
  Failure.stdException ("Recurso não encontrado: " ++ toString key)

/-- `ResourceManager::get_read_access`: `resources.find(key)`; throw when it is
`end()`; otherwise `it->second->lock_read()`.  The result and the manager after
the call. -/
def get_read_access (m : ResourceManager Key R) (key : Key) :
    AccessResult (ReadLock R) × ResourceManager Key R :=
  match m.resources.lookup key with
  | none => (AccessResult.raised (notFound key), m)
  | some sr =>
    match sr.lock_read with
    | none => (AccessResult.blocked, m)
    | some (guard, sr1) =>
      (AccessResult.granted guard, { resources := m.resources.replace key sr1 })

/-- `ResourceManager::get_write_access`: as `get_read_access`, with
`it->second->lock_write()`. -/
def get_write_access (m : ResourceManager Key R) (key : Key) :
    AccessResult (WriteLock R) × ResourceManager Key R :=
  match m.resources.lookup key with
  | none => (AccessResult.raised (notFound key), m)
  | some sr =>
    match sr.lock_write with
    | none => (AccessResult.blocked, m)
    | some (guard, sr1) =>
      (AccessResult.granted guard, { resources := m.resources.replace key sr1 })

/-- `ResourceManager::add_resource`:
`resources[key] = std::make_shared<SharedResource<Resource>>(resource)`. -/
def add_resource (m : ResourceManager Key R) (key : Key) (resource : R) :
    ResourceManager Key R :=
  { resources := m.resources.insert key (SharedResource.new resource) }

/-- `ResourceManager::remove_resource`: `resources.erase(key)`. -/
def remove_resource (m : ResourceManager Key R) (key : Key) : ResourceManager Key R :=
  { resources := m.resources.erase key }

/-- `ResourceManager::contains`: `resources.find(key) != resources.end()`. -/
def contains (m : ResourceManager Key R) (key : Key) : Bool :=
  (m.resources.lookup key).isSome

/-- `ResourceManager::size`: `resources.size()`. -/
def size (m : ResourceManager Key R) : Nat := m.resources.entries.length

/-- The manager of the fixture `ResourceManagerTest` after `SetUp`: the keys
`"data"` and `"config"`, whose pointers are numbered 0 and 1. -/
def fixture : ResourceManager String Nat :=
  add_resource (add_resource new "data" 0) "config" 1

end ResourceManager

/-! ## Guards going out of scope, and the guards alive on one resource -/

namespace SharedMutex

/-- `unlock_shared()`, called by the destructor of `std::shared_lock`. -/
def unlock_shared (m : SharedMutex) : SharedMutex := { m with readers := m.readers - 1 }

/-- `unlock()`, called by the destructor of `std::unique_lock`. -/
def unlock (m : SharedMutex) : SharedMutex := { m with writer := false }

/-- Whether a lock owns the mutex, in either mode.  Destroying a
`std::shared_mutex` that is owned is undefined behaviour. -/
def owned (m : SharedMutex) : Bool := m.writer || m.readers != 0

end SharedMutex

namespace SharedResource

variable {R : Type}

/-- `~ReadLock()` of a guard made from this resource: its `lock` member is
destroyed, which releases the shared hold. -/
def release_read (sr : SharedResource R) : SharedResource R :=
  { sr with mutex := sr.mutex.unlock_shared }

/-- `~WriteLock()` of a guard made from this resource: its `lock` member is
destroyed, which releases the exclusive hold. -/
def release_write (sr : SharedResource R) : SharedResource R :=
  { sr with mutex := sr.mutex.unlock }

end SharedResource

/-- What a thread may do to one resource's lock. -/
inductive LockEvent where
  /-- A call of `lock_read()`. -/
  | acquireRead
  /-- A call of `lock_write()`. -/
  | acquireWrite
  /-- A `ReadLock` of this resource goes out of scope. -/
  | releaseRead
  /-- A `WriteLock` of this resource goes out of scope. -/
  | releaseWrite
deriving DecidableEq, Repr

/-- A `SharedResource` together with the guards made from it that are alive. -/
structure GuardedResource (R : Type) where
  shared : SharedResource R
  readLocks : List (ReadLock R)
  writeLocks : List (WriteLock R)
deriving DecidableEq, Repr

namespace GuardedResource

variable {R : Type}

/-- A resource just constructed: no guard yet. -/
def fresh (resource : R) : GuardedResource R :=
  { shared := SharedResource.new resource, readLocks := [], writeLocks := [] }

/-- One event.  A call of `lock_read` / `lock_write` that has to wait makes no
guard (nothing changes); a guard can only go out of scope if there is one. -/
def step (s : GuardedResource R) : LockEvent → GuardedResource R
  | LockEvent.acquireRead =>
    match s.shared.lock_read with
    | none => s
    | some (g, sr) => { s with shared := sr, readLocks := g :: s.readLocks }
  | LockEvent.acquireWrite =>
    match s.shared.lock_write with
    | none => s
    | some (g, sr) => { s with shared := sr, writeLocks := g :: s.writeLocks }
  | LockEvent.releaseRead =>
    match s.readLocks with
    | [] => s
    | _ :: rest => { s with shared := s.shared.release_read, readLocks := rest }
  | LockEvent.releaseWrite =>
    match s.writeLocks with
    | [] => s
    | _ :: rest => { s with shared := s.shared.release_write, writeLocks := rest }

/-- The resource after the events of `es`, in that order. -/
def run : List LockEvent → GuardedResource R → GuardedResource R
  | [], s => s
  | e :: es, s => run es (s.step e)

/-- The mutex agrees with the guards alive: as many shared owners as read
guards, an exclusive owner exactly when there is a write guard, at most one
write guard, and no read guard beside a write guard. -/
def Consistent (s : GuardedResource R) : Prop :=
  s.shared.mutex.readers = s.readLocks.length ∧
  (s.shared.mutex.writer = true → s.writeLocks.length = 1 ∧ s.readLocks = []) ∧
  (s.shared.mutex.writer = false → s.writeLocks = [])

end GuardedResource

/-! ## The values behind the pointers, and a manager with them -/

/-- The objects owned through `std::shared_ptr<T>`: at each address the value
and its use count (how many `shared_ptr`s own it), or `none` where there is no
object: never allocated, or destroyed when its last owner went away.  `next` is
the address the next allocation gets. -/
structure ValueHeap (T : Type) where
  cells : Nat → Option (T × Nat)
  next : Nat

namespace ValueHeap

variable {T : Type}

/-- No object. -/
def empty : ValueHeap T := { cells := fun _ => none, next := 0 }

/-- `std::make_shared<T>(v)`: a new object owned by the pointer returned. -/
def alloc (h : ValueHeap T) (v : T) : Nat × ValueHeap T :=
  (h.next, { cells := Function.update h.cells h.next (some (v, 1)), next := h.next + 1 })

/-- The value a pointer points to. -/
def read (h : ValueHeap T) (p : Nat) : Option T := (h.cells p).map Prod.fst

/-- Assignment to the object a pointer points to. -/
def write (h : ValueHeap T) (p : Nat) (v : T) : ValueHeap T :=
  match h.cells p with
  | some (_, n) => { h with cells := Function.update h.cells p (some (v, n)) }
  | none => h

/-- A `shared_ptr` is copied: one more owner. -/
def retain (h : ValueHeap T) (p : Nat) : ValueHeap T :=
  match h.cells p with
  | some (v, n) => { h with cells := Function.update h.cells p (some (v, n + 1)) }
  | none => h

/-- A `shared_ptr` is destroyed: one owner less, and the object is destroyed
with its last owner. -/
def release (h : ValueHeap T) (p : Nat) : ValueHeap T :=
  match h.cells p with
  | some (v, n) =>
    if n ≤ 1 then { h with cells := Function.update h.cells p none }
    else { h with cells := Function.update h.cells p (some (v, n - 1)) }
  | none => h

end ValueHeap

/-- `*write_lock = v`: `WriteLock::operator*` is declared `T& operator*();`. -/
def WriteLock.assign {T : Type} (g : WriteLock Nat) (h : ValueHeap T) (v : T) : ValueHeap T :=
  h.write g.resource v

/-- `*read_lock = v`: `ReadLock::operator*` is declared `T& operator*();` as
well, so the assignment compiles and stores through the same pointer. -/
def ReadLock.assign {T : Type} (g : ReadLock Nat) (h : ValueHeap T) (v : T) : ValueHeap T :=
  h.write g.resource v

/-- A manager whose resources are pointers into a heap of values. -/
structure ResourceWorld (Key T : Type) where
  manager : ResourceManager Key Nat
  heap : ValueHeap T

namespace ResourceWorld

variable {Key T : Type} [DecidableEq Key] [ToString Key]

/-- A manager just constructed, and no object. -/
def new : ResourceWorld Key T := { manager := ResourceManager.new, heap := ValueHeap.empty }

/-- `add_resource(key, resource)`: the new `SharedResource` owns a copy of the
pointer; the assignment to `resources[key]` then destroys the `SharedResource`
that was there, if any: its mutex and its pointer.  `none` is undefined
behaviour: the mutex destroyed is owned by a guard that is alive, whose `lock`
member only refers to it. -/
def add_resource (w : ResourceWorld Key T) (key : Key) (resource : Nat) :
    Option (ResourceWorld Key T) :=
  match w.manager.resources.lookup key with
  | none =>
    some { manager := w.manager.add_resource key resource, heap := w.heap.retain resource }
  | some old =>
    if old.mutex.owned then none
    else
      some { manager := w.manager.add_resource key resource,
             heap := (w.heap.retain resource).release old.resource }

/-- The call `add_resource(key, std::make_shared<T>(v))` of the tests: the
temporary pointer is destroyed at the end of the statement. -/
def add_value (w : ResourceWorld Key T) (key : Key) (v : T) : Option (ResourceWorld Key T) :=
  let a := w.heap.alloc v
  (add_resource { w with heap := a.2 } key a.1).map fun w1 =>
    { w1 with heap := w1.heap.release a.1 }

/-- `remove_resource(key)`: `resources.erase(key)` destroys the
`SharedResource` of the entry: its mutex and its pointer.  `none` is undefined
behaviour: the mutex destroyed is owned by a guard that is alive, whose `lock`
member only refers to it (and would unlock freed storage on scope exit). -/
def remove_resource (w : ResourceWorld Key T) (key : Key) : Option (ResourceWorld Key T) :=
  match w.manager.resources.lookup key with
  | none => some { w with manager := w.manager.remove_resource key }
  | some old =>
    if old.mutex.owned then none
    else
      some { manager := w.manager.remove_resource key, heap := w.heap.release old.resource }

/-- `get_read_access(key)`: a guard that is returned owns a copy of the
pointer. -/
def get_read_access (w : ResourceWorld Key T) (key : Key) :
    AccessResult (ReadLock Nat) × ResourceWorld Key T :=
  match w.manager.get_read_access key with
  | (AccessResult.granted g, m) =>
    (AccessResult.granted g, { manager := m, heap := w.heap.retain g.resource })
  | (r, m) => (r, { w with manager := m })

/-- `get_write_access(key)`: a guard that is returned owns a copy of the
pointer. -/
def get_write_access (w : ResourceWorld Key T) (key : Key) :
    AccessResult (WriteLock Nat) × ResourceWorld Key T :=
  match w.manager.get_write_access key with
  | (AccessResult.granted g, m) =>
    (AccessResult.granted g, { manager := m, heap := w.heap.retain g.resource })
  | (r, m) => (r, { w with manager := m })

/-- A `ReadLock` made from the entry of `key` goes out of scope, the entry not
having been replaced since: its `lock` member releases the mutex, then its
`resource` member gives up the pointer.  `none` when the entry, and with it the
mutex that `lock` refers to, is gone. -/
def release_read (w : ResourceWorld Key T) (key : Key) (g : ReadLock Nat) :
    Option (ResourceWorld Key T) :=
  match w.manager.resources.lookup key with
  | none => none
  | some sr =>
    some { manager := { resources := w.manager.resources.replace key sr.release_read },
           heap := w.heap.release g.resource }

/-- A `WriteLock` made from the entry of `key` goes out of scope. -/
def release_write (w : ResourceWorld Key T) (key : Key) (g : WriteLock Nat) :
    Option (ResourceWorld Key T) :=
  match w.manager.resources.lookup key with
  | none => none
  | some sr =>
    some { manager := { resources := w.manager.resources.replace key sr.release_write },
           heap := w.heap.release g.resource }

/-- The fixture `ResourceManagerTest` after `SetUp`: `"data"` holds 0 and
`"config"` holds 100. -/
def fixture : ResourceWorld String Int :=
  ((add_value new "data" 0).bind fun w => add_value w "config" 100).getD new

/-- The same with `int` keys, for which `std::to_string(key)` is defined: key 1
holds 0 and key 2 holds 100. -/
def intKeyed : ResourceWorld Nat Int :=
  ((add_value new 1 0).bind fun w => add_value w 2 100).getD new

end ResourceWorld

/-! ## A worker on a queue with a task that throws something else -/

/-- A call a thread makes on the manager. -/
inductive ManagerCall (Key R : Type) where
  | get_read_access (key : Key)
  | get_write_access (key : Key)
  | add_resource (key : Key) (resource : R)
  | remove_resource (key : Key)
deriving DecidableEq, Repr

/-- Whether the call is one of the two lookups, whose first statement is
`std::shared_lock lock(resources_mutex);` (the other two calls start with
`std::unique_lock lock(resources_mutex);`). -/
def ManagerCall.isAccess {Key R : Type} : ManagerCall Key R → Bool
  | ManagerCall.get_read_access _ => true
  | ManagerCall.get_write_access _ => true
  | ManagerCall.add_resource _ _ => false
  | ManagerCall.remove_resource _ => false

/-- Where a thread stands in its call. -/
inductive CallPc where
  /-- About to construct the local `lock` on `resources_mutex`. -/
  | enter
  /-- The local `lock` holds `resources_mutex`; the statements after it (the
  lookup and `lock_read()` / `lock_write()`, or the update of the map) have not
  completed. -/
  | holding
  /-- The result is made or the exception thrown; the local `lock` is about to
  be destroyed. -/
  | leave
  /-- The call has returned. -/
  | returned
deriving DecidableEq, Repr

/-- The result of a lookup call, whichever guard it asked for. -/
inductive AccessOutcome (R : Type) where
  | readGuard (g : ReadLock R)
  | writeGuard (g : WriteLock R)
  | raised (e : Failure)
deriving DecidableEq, Repr

/-- A thread in a call on the manager, with the result of the call once it is
made.  A guard returned stays alive. -/
structure ManagerThread (Key R : Type) where
  call : ManagerCall Key R
  pc : CallPc
  outcome : Option (AccessOutcome R)
deriving DecidableEq, Repr

/-- A manager with its structural mutex `resources_mutex` and the threads that
are in a call on it. -/
structure ManagerSystem (Key R : Type) where
  resources_mutex : SharedMutex
  manager : ResourceManager Key R
  threads : List (ManagerThread Key R)

namespace ManagerSystem

variable {Key R : Type} [DecidableEq Key] [ToString Key]

/-- Thread `i` moves to `pc`. -/
def advance (s : ManagerSystem Key R) (i : Nat) (t : ManagerThread Key R) (pc : CallPc)
    (outcome : Option (AccessOutcome R)) : ManagerSystem Key R :=
  { s with threads := s.threads.set i { t with pc := pc, outcome := outcome } }

/-- One step of thread `i`.  At `enter` the local `lock` is constructed, which
waits (no step) while `resources_mutex` cannot be taken.  In the body the
lookup throws or goes on to `lock_read()` / `lock_write()`, which waits (no
step) while the mutex of the resource cannot be taken; `add_resource` and
`remove_resource` update the map.  At `leave` the function returns, and the
destructor of the local `lock` releases `resources_mutex`. -/
def step (i : Nat) (s : ManagerSystem Key R) : ManagerSystem Key R :=
  match s.threads[i]? with
  | none => s
  | some t =>
    match t.pc with
    | CallPc.enter =>
      if t.call.isAccess then
        match s.resources_mutex.lock_shared with
        | none => s
        | some mx => { s with resources_mutex := mx }.advance i t CallPc.holding none
      else
        match s.resources_mutex.lock with
        | none => s
        | some mx => { s with resources_mutex := mx }.advance i t CallPc.holding none
    | CallPc.holding =>
      match t.call with
      | ManagerCall.get_read_access key =>
        match s.manager.get_read_access key with
        | (AccessResult.blocked, _) => s
        | (AccessResult.granted g, m) =>
          { s with manager := m }.advance i t CallPc.leave (some (AccessOutcome.readGuard g))
        | (AccessResult.raised e, m) =>
          { s with manager := m }.advance i t CallPc.leave (some (AccessOutcome.raised e))
      | ManagerCall.get_write_access key =>
        match s.manager.get_write_access key with
        | (AccessResult.blocked, _) => s
        | (AccessResult.granted g, m) =>
          { s with manager := m }.advance i t CallPc.leave (some (AccessOutcome.writeGuard g))
        | (AccessResult.raised e, m) =>
          { s with manager := m }.advance i t CallPc.leave (some (AccessOutcome.raised e))
      | ManagerCall.add_resource key resource =>
        { s with manager := s.manager.add_resource key resource }.advance i t CallPc.leave none
      | ManagerCall.remove_resource key =>
        { s with manager := s.manager.remove_resource key }.advance i t CallPc.leave none
    | CallPc.leave =>
      if t.call.isAccess then
        { s with resources_mutex := s.resources_mutex.unlock_shared }.advance i t
          CallPc.returned t.outcome
      else
        { s with resources_mutex := s.resources_mutex.unlock }.advance i t
          CallPc.returned t.outcome
    | CallPc.returned => s

/-- The system after the scheduler has let the threads of `sched` move, in
that order. -/
def run : List Nat → ManagerSystem Key R → ManagerSystem Key R
  | [], s => s
  | i :: sched, s => run sched (step i s)

end ManagerSystem

/-! ## Lemmas on `TaskQueue` -/

namespace TaskQueue

variable {Task : Type}

theorem pushAll_running (ts : List Task) (q : TaskQueue Task) (h : q.stop_flag = false) :
    pushAll q ts = (ts.map fun _ => true, { q with queue := q.queue ++ ts }) := by
  induction ts generalizing q with
  | nil => simp [pushAll]
  | cons t ts ih =>
    have hp : q.push t = (true, { q with queue := q.queue ++ [t] }) := by
      simp [push, h]
    have h2 := ih { q with queue := q.queue ++ [t] } h
    simp only [pushAll, hp, h2]
    simp

theorem pop_cons (t : Task) (rest : List Task) (b : Bool) :
    pop ({ queue := t :: rest, stop_flag := b } : TaskQueue Task)
      = PopOutcome.task t { queue := rest, stop_flag := b } := by
  cases b <;> simp [pop]

theorem popN_cons (n : Nat) (t : Task) (rest : List Task) (b : Bool) :
    popN (n + 1) ({ queue := t :: rest, stop_flag := b } : TaskQueue Task)
      = (popN n { queue := rest, stop_flag := b }).map
          fun r => ((true, some t) :: r.1, r.2) := by
  rw [popN, pop_cons]

theorem popN_length (ts rest : List Task) (b : Bool) :
    popN ts.length ({ queue := ts ++ rest, stop_flag := b } : TaskQueue Task)
      = some (ts.map fun t => (true, some t), { queue := rest, stop_flag := b }) := by
  induction ts with
  | nil => simp [popN]
  | cons t ts ih =>
    rw [List.length_cons, List.cons_append, popN_cons, ih]
    simp

end TaskQueue

/-! ## Theorems on `TaskQueue` -/

/-- C1: strict FIFO.  On a non-stopped, empty queue, pushing `t1..tn` in that
order succeeds each time, and `n` calls of `pop` afterwards all return `true`
and yield exactly `t1..tn` in the same order, leaving the queue empty. -/
theorem taskQueue_fifo {Task : Type} (ts : List Task) :
    (TaskQueue.pushAll (TaskQueue.new : TaskQueue Task) ts).1 = ts.map (fun _ => true) ∧
    TaskQueue.popN ts.length (TaskQueue.pushAll (TaskQueue.new : TaskQueue Task) ts).2
      = some (ts.map fun t => (true, some t), { queue := [], stop_flag := false }) := by
  rw [TaskQueue.pushAll_running ts TaskQueue.new rfl]
  refine ⟨rfl, ?_⟩
  have h := TaskQueue.popN_length ts ([] : List Task) false
  simpa [TaskQueue.new] using h

/-- C3: on a queue on which `stop` has been called (stopped flag set), `push`
returns `false` and leaves the task sequence and the stopped flag unchanged; on
a queue that is not stopped `push` returns `true` and appends the task at the
back. -/
theorem taskQueue_push_spec {Task : Type} (q : TaskQueue Task) (qs : List Task) (t : Task) :
    q.stop.push t = (false, q.stop) ∧
    q.stop.queue = q.queue ∧
    TaskQueue.push { queue := qs, stop_flag := true } t
      = (false, { queue := qs, stop_flag := true }) ∧
    TaskQueue.push { queue := qs, stop_flag := false } t
      = (true, { queue := qs ++ [t], stop_flag := false }) := by
  simp [TaskQueue.push, TaskQueue.stop]

/-- C4: a stopped queue holding `q1..qm` hands out `q1..qm` in order, each with
`true`, and the next `pop` returns `false` (end of work) without a task and
without blocking; for `m = 0` the first `pop` already does so. -/
theorem taskQueue_stopped_drain {Task : Type} (qs : List Task) :
    TaskQueue.popN (qs.length + 1) ({ queue := qs, stop_flag := true } : TaskQueue Task)
      = some (qs.map (fun t => (true, some t)) ++ [(false, none)],
              { queue := [], stop_flag := true }) ∧
    TaskQueue.pop ({ queue := [], stop_flag := true } : TaskQueue Task)
      = PopOutcome.endOfWork { queue := [], stop_flag := true } := by
  have hend : TaskQueue.pop ({ queue := [], stop_flag := true } : TaskQueue Task)
      = PopOutcome.endOfWork { queue := [], stop_flag := true } := by
    simp [TaskQueue.pop]
  refine ⟨?_, hend⟩
  induction qs with
  | nil => simp [TaskQueue.popN, hend]
  | cons t ts ih =>
    rw [List.length_cons, TaskQueue.popN_cons, ih]
    simp

/-! ## Theorems on `ThreadPool` -/

namespace ThreadPool

theorem spawnWorkers_length {Task : Type} (n : Nat) (ws : List (WorkerThread Task)) :
    (spawnWorkers n ws).length = ws.length + n := by
  induction n generalizing ws with
  | zero => simp [spawnWorkers]
  | succ n ih =>
    rw [spawnWorkers, ih]
    simp
    omega

end ThreadPool

/-- C5: `submit` raises the pool-stopped error exactly when the queue is
stopped.  When it raises, the pool (queue included) and the heap are unchanged.
When it does not raise, the new task, and only it, is appended to the queue and
the future of its shared state is returned. -/
theorem threadPool_submit_spec {A R : Type} (p : ThreadPool (PackagedTask R))
    (h : FutureHeap R) (f : A → Except Failure R) (args : A) :
    ((ThreadPool.submit p h f args).1
        = Except.error (Failure.stdException ThreadPool.stoppedMessage)
      ↔ p.task_queue.stop_flag = true) ∧
    (p.task_queue.stop_flag = true →
      (ThreadPool.submit p h f args).2 = (p, h)) ∧
    (p.task_queue.stop_flag = false →
      ThreadPool.submit p h f args =
        (Except.ok { cell := h.length },
         { p with task_queue :=
            { queue := p.task_queue.queue ++ [{ fn := fun _ => f args, cell := h.length }],
              stop_flag := false } },
         h ++ [SharedState.pending])) := by
  cases hs : p.task_queue.stop_flag <;>
    simp [ThreadPool.submit, TaskQueue.push, hs]

/-- C7 (as stated, refuted): a pool constructed with `num_threads = 0` is
accepted and has `size() = 0`. -/
theorem threadPool_zero_workers :
    (ThreadPool.new 0 : ThreadPool Nat).size = 0 ∧
    ¬ (1 ≤ (ThreadPool.new 0 : ThreadPool Nat).size) := by
  decide

/-- C7 (amended): the constructor neither rejects nor coerces a count: the
pool has exactly `num_threads` workers and an empty queue that is not stopped,
so `size() >= 1` holds exactly when `num_threads >= 1`. -/
theorem threadPool_size_eq {Task : Type} (num_threads : Nat) :
    (ThreadPool.new num_threads : ThreadPool Task).size = num_threads ∧
    (ThreadPool.new num_threads : ThreadPool Task).task_queue = TaskQueue.new ∧
    (1 ≤ (ThreadPool.new num_threads : ThreadPool Task).size ↔ 1 ≤ num_threads) := by
  have h : (ThreadPool.new num_threads : ThreadPool Task).size = num_threads := by
    simp [ThreadPool.new, ThreadPool.size, ThreadPool.spawnWorkers_length]
  refine ⟨h, rfl, ?_⟩
  rw [h]

/-! ## Lemmas on a pool under teardown -/

theorem List.set_of_getElem?_eq {α : Type} (l : List α) (i : Nat) (a : α)
    (h : l[i]? = some a) : l.set i a = l := by
  induction l generalizing i with
  | nil => rfl
  | cons x xs ih =>
    cases i with
    | zero =>
      simp at h
      simp [h]
    | succ i =>
      simp at h
      simp [ih i h]

theorem List.perm_take_held {α : Type} (e A B rest : List α) (t : α) :
    List.Perm (e ++ (A ++ [t] ++ B) ++ rest) (e ++ (A ++ [] ++ B) ++ t :: rest) := by
  have h : t :: rest = [t] ++ rest := rfl
  rw [h, ← Multiset.coe_eq_coe]
  simp only [← Multiset.coe_add]
  abel

theorem List.perm_call_held {α : Type} (e A B rest : List α) (t : α) :
    List.Perm (e ++ [t] ++ (A ++ [] ++ B) ++ rest) (e ++ (A ++ [t] ++ B) ++ rest) := by
  rw [← Multiset.coe_eq_coe]
  simp only [← Multiset.coe_add]
  abel

namespace TaskQueue

variable {Task : Type}

theorem pop_task_inv (q q1 : TaskQueue Task) (t : Task) (h : q.pop = PopOutcome.task t q1) :
    q.queue = t :: q1.queue ∧ q1.stop_flag = q.stop_flag := by
  cases q with
  | mk queue stop_flag =>
    cases queue with
    | nil => cases stop_flag <;> simp [pop] at h
    | cons x rest =>
      rw [pop_cons] at h
      cases h
      exact ⟨rfl, rfl⟩

theorem pop_endOfWork_inv (q q1 : TaskQueue Task) (h : q.pop = PopOutcome.endOfWork q1) :
    q1 = q := by
  cases q with
  | mk queue stop_flag =>
    cases queue with
    | nil =>
      cases stop_flag <;> simp [pop] at h
      exact h.symm
    | cons x rest =>
      rw [pop_cons] at h
      cases h

end TaskQueue

namespace PoolSystem

variable {Task W : Type}

theorem held_set_split (ws : List (WorkerThread Task)) (i : Nat) (w w1 : WorkerThread Task)
    (h : ws[i]? = some w) :
    ∃ A B, ws.flatMap WorkerThread.held = A ++ w.held ++ B ∧
      (ws.set i w1).flatMap WorkerThread.held = A ++ w1.held ++ B := by
  induction ws generalizing i with
  | nil => simp at h
  | cons x xs ih =>
    cases i with
    | zero =>
      simp at h
      subst h
      exact ⟨[], xs.flatMap WorkerThread.held, by simp, by simp⟩
    | succ i =>
      simp at h
      obtain ⟨A, B, h1, h2⟩ := ih i h
      exact ⟨x.held ++ A, B, by simp [h1], by simp [h2]⟩

theorem workerStep_none (exec : Task → W → ExecResult W) (i : Nat) (s : PoolSystem Task W)
    (hw : s.pool.workers[i]? = none) : workerStep exec i s = s := by
  simp [workerStep, hw]

theorem workerStep_loopHead (exec : Task → W → ExecResult W) (i : Nat) (s : PoolSystem Task W)
    (w : WorkerThread Task) (hw : s.pool.workers[i]? = some w) (hpc : w.pc = WorkerPc.loopHead) :
    workerStep exec i s =
      if w.running then s.setPc i w WorkerPc.popping else s.setPc i w WorkerPc.exited := by
  simp [workerStep, hw, hpc]

theorem workerStep_popping (exec : Task → W → ExecResult W) (i : Nat) (s : PoolSystem Task W)
    (w : WorkerThread Task) (hw : s.pool.workers[i]? = some w) (hpc : w.pc = WorkerPc.popping) :
    workerStep exec i s =
      match s.pool.task_queue.pop with
      | PopOutcome.blocked => s
      | PopOutcome.endOfWork q =>
        { s with pool := { s.pool with task_queue := q } }.setPc i w WorkerPc.exited
      | PopOutcome.task t q =>
        { s with pool := { s.pool with task_queue := q } }.setPc i w (WorkerPc.executing t) := by
  simp [workerStep, hw, hpc]

theorem workerStep_executing (exec : Task → W → ExecResult W) (i : Nat) (s : PoolSystem Task W)
    (w : WorkerThread Task) (t : Task) (hw : s.pool.workers[i]? = some w)
    (hpc : w.pc = WorkerPc.executing t) :
    workerStep exec i s =
      match exec t s.world with
      | ExecResult.returned world =>
        { s with world := world, executed := s.executed ++ [t] }.setPc i w WorkerPc.loopHead
      | ExecResult.raised (Failure.stdException _) world =>
        { s with world := world, executed := s.executed ++ [t] }.setPc i w WorkerPc.loopHead
      | ExecResult.raised (Failure.other _) world =>
        { s with world := world, executed := s.executed ++ [t],
                 terminated := true }.setPc i w WorkerPc.exited := by
  simp [workerStep, hw, hpc]

theorem workerStep_exited (exec : Task → W → ExecResult W) (i : Nat) (s : PoolSystem Task W)
    (w : WorkerThread Task) (hw : s.pool.workers[i]? = some w) (hpc : w.pc = WorkerPc.exited) :
    workerStep exec i s = s := by
  simp [workerStep, hw, hpc]

theorem workerStep_perm (exec : Task → W → ExecResult W) (i : Nat) (s : PoolSystem Task W) :
    List.Perm (workerStep exec i s).allTasks s.allTasks := by
  cases hw : s.pool.workers[i]? with
  | none => rw [workerStep_none exec i s hw]
  | some w =>
    cases hpc : w.pc with
    | loopHead =>
      rw [workerStep_loopHead exec i s w hw hpc]
      obtain ⟨A, B, h1, h2⟩ := held_set_split s.pool.workers i w
        { w with pc := WorkerPc.popping } hw
      obtain ⟨A1, B1, h3, h4⟩ := held_set_split s.pool.workers i w
        { w with pc := WorkerPc.exited } hw
      by_cases hr : w.running = true
      · rw [if_pos hr]
        simp [allTasks, heldTasks, setPc, h1, h2, WorkerThread.held, hpc]
      · rw [if_neg hr]
        simp [allTasks, heldTasks, setPc, h3, h4, WorkerThread.held, hpc]
    | exited => rw [workerStep_exited exec i s w hw hpc]
    | popping =>
      rw [workerStep_popping exec i s w hw hpc]
      cases hp : s.pool.task_queue.pop with
      | blocked => exact List.Perm.refl _
      | endOfWork q =>
        have hq := TaskQueue.pop_endOfWork_inv _ _ hp
        obtain ⟨A, B, h1, h2⟩ := held_set_split s.pool.workers i w
          { w with pc := WorkerPc.exited } hw
        simp [allTasks, heldTasks, setPc, h1, h2, WorkerThread.held, hpc, hq]
      | task t q =>
        obtain ⟨hq, _⟩ := TaskQueue.pop_task_inv _ _ _ hp
        obtain ⟨A, B, h1, h2⟩ := held_set_split s.pool.workers i w
          { w with pc := WorkerPc.executing t } hw
        simp only [allTasks, heldTasks, setPc, h1, h2, WorkerThread.held, hpc, hq]
        exact List.perm_take_held _ _ _ _ _
    | executing t =>
      rw [workerStep_executing exec i s w t hw hpc]
      obtain ⟨A, B, h1, h2⟩ := held_set_split s.pool.workers i w
        { w with pc := WorkerPc.loopHead } hw
      obtain ⟨A1, B1, h3, h4⟩ := held_set_split s.pool.workers i w
        { w with pc := WorkerPc.exited } hw
      cases he : exec t s.world with
      | returned world =>
        simp only [allTasks, heldTasks, setPc, h1, h2, WorkerThread.held, hpc]
        exact List.perm_call_held _ _ _ _ _
      | raised e world =>
        cases e with
        | stdException what =>
          simp only [allTasks, heldTasks, setPc, h1, h2, WorkerThread.held, hpc]
          exact List.perm_call_held _ _ _ _ _
        | other tag =>
          simp only [allTasks, heldTasks, setPc, h3, h4, WorkerThread.held, hpc]
          exact List.perm_call_held _ _ _ _ _

end PoolSystem

namespace PoolSystem

variable {Task W : Type}

theorem dtorStep_perm (s : PoolSystem Task W) :
    List.Perm (dtorStep s).allTasks s.allTasks := by
  cases hd : s.dtor with
  | stopQueue => simp [dtorStep, hd, allTasks, heldTasks, TaskQueue.stop]
  | returned => simp [dtorStep, hd]
  | joinWorkers i =>
    cases hw : s.pool.workers[i]? with
    | none => simp [dtorStep, hd, hw, allTasks, heldTasks]
    | some w =>
      by_cases hf : w.finished = true
      · simp [dtorStep, hd, hw, hf, allTasks, heldTasks]
      · simp [dtorStep, hd, hw, hf]
  | stopWorkers i =>
    cases hw : s.pool.workers[i]? with
    | none => simp [dtorStep, hd, hw, allTasks, heldTasks]
    | some w =>
      obtain ⟨A, B, h1, h2⟩ := held_set_split s.pool.workers i w w.stop hw
      have hs : w.stop.held = w.held := rfl
      simp [dtorStep, hd, hw, allTasks, heldTasks, h1, h2, hs]

theorem step_perm (exec : Task → W → ExecResult W) (a : Actor) (s : PoolSystem Task W) :
    List.Perm (step exec a s).allTasks s.allTasks := by
  unfold step
  by_cases ht : s.terminated = true
  · rw [if_pos ht]
  · rw [if_neg ht]
    cases a with
    | destructor => exact dtorStep_perm s
    | worker i => exact workerStep_perm exec i s

theorem run_perm (exec : Task → W → ExecResult W) (sched : List Actor) (s : PoolSystem Task W) :
    List.Perm (run exec sched s).allTasks s.allTasks := by
  induction sched generalizing s with
  | nil => exact List.Perm.refl _
  | cons a sched ih => exact (ih (step exec a s)).trans (step_perm exec a s)

theorem workerStep_shape (exec : Task → W → ExecResult W) (i : Nat) (s : PoolSystem Task W) :
    (workerStep exec i s).dtor = s.dtor ∧
    ((workerStep exec i s).pool.workers = s.pool.workers ∨
      ∃ w pc, s.pool.workers[i]? = some w ∧ w.finished = false ∧
        (workerStep exec i s).pool.workers = s.pool.workers.set i { w with pc := pc }) := by
  cases hw : s.pool.workers[i]? with
  | none =>
    rw [workerStep_none exec i s hw]
    exact ⟨rfl, Or.inl rfl⟩
  | some w =>
    cases hpc : w.pc with
    | exited =>
      rw [workerStep_exited exec i s w hw hpc]
      exact ⟨rfl, Or.inl rfl⟩
    | loopHead =>
      have hnf : w.finished = false := by simp [WorkerThread.finished, hpc]
      rw [workerStep_loopHead exec i s w hw hpc]
      by_cases hr : w.running = true
      · rw [if_pos hr]
        exact ⟨rfl, Or.inr ⟨w, _, rfl, hnf, rfl⟩⟩
      · rw [if_neg hr]
        exact ⟨rfl, Or.inr ⟨w, _, rfl, hnf, rfl⟩⟩
    | popping =>
      have hnf : w.finished = false := by simp [WorkerThread.finished, hpc]
      rw [workerStep_popping exec i s w hw hpc]
      cases hp : s.pool.task_queue.pop with
      | blocked => exact ⟨rfl, Or.inl rfl⟩
      | endOfWork q => exact ⟨rfl, Or.inr ⟨w, _, rfl, hnf, rfl⟩⟩
      | task t q => exact ⟨rfl, Or.inr ⟨w, _, rfl, hnf, rfl⟩⟩
    | executing t =>
      have hnf : w.finished = false := by simp [WorkerThread.finished, hpc]
      rw [workerStep_executing exec i s w t hw hpc]
      cases he : exec t s.world with
      | returned world => exact ⟨rfl, Or.inr ⟨w, _, rfl, hnf, rfl⟩⟩
      | raised e world =>
        cases e with
        | stdException what => exact ⟨rfl, Or.inr ⟨w, _, rfl, hnf, rfl⟩⟩
        | other tag => exact ⟨rfl, Or.inr ⟨w, _, rfl, hnf, rfl⟩⟩

end PoolSystem

namespace PoolSystem

variable {Task W : Type}

theorem workerStep_joined (exec : Task → W → ExecResult W) (i : Nat) (s : PoolSystem Task W)
    (h : JoinedFinished s) : JoinedFinished (workerStep exec i s) := by
  obtain ⟨hd, hws⟩ := workerStep_shape exec i s
  have key : ∀ (j : Nat) (w1 : WorkerThread Task),
      (workerStep exec i s).pool.workers[j]? = some w1 →
      (∀ w0, s.pool.workers[j]? = some w0 → w0.finished = true) → w1.finished = true := by
    intro j w1 hget hold
    rcases hws with heq | ⟨w, pc, hw, hnf, heq⟩
    · rw [heq] at hget
      exact hold w1 hget
    · rw [heq] at hget
      by_cases hij : i = j
      · subst hij
        have := hold w hw
        rw [hnf] at this
        cases this
      · rw [List.getElem?_set_ne hij] at hget
        exact hold w1 hget
  cases hdt : s.dtor with
  | stopQueue => simp [JoinedFinished, hd, hdt]
  | stopWorkers k => simp [JoinedFinished, hd, hdt]
  | joinWorkers k =>
    simp only [JoinedFinished, hd, hdt] at h ⊢
    intro j w1 hj hget
    exact key j w1 hget (fun w0 h0 => h j w0 hj h0)
  | returned =>
    simp only [JoinedFinished, hd, hdt] at h ⊢
    intro j w1 hget
    exact key j w1 hget (fun w0 h0 => h j w0 h0)

theorem dtorStep_joined (s : PoolSystem Task W) (h : JoinedFinished s) :
    JoinedFinished (dtorStep s) := by
  cases hdt : s.dtor with
  | stopQueue => simp [JoinedFinished, dtorStep, hdt]
  | returned =>
    have : dtorStep s = s := by simp [dtorStep, hdt]
    rw [this]
    exact h
  | stopWorkers k =>
    cases hw : s.pool.workers[k]? with
    | none => simp [JoinedFinished, dtorStep, hdt, hw]
    | some w => simp [JoinedFinished, dtorStep, hdt, hw]
  | joinWorkers k =>
    simp only [JoinedFinished, hdt] at h
    cases hw : s.pool.workers[k]? with
    | none =>
      simp only [JoinedFinished, dtorStep, hdt, hw]
      intro j w1 hget
      have hlen : s.pool.workers.length ≤ k := by
        rcases Nat.lt_or_ge k s.pool.workers.length with hlt | hge
        · rw [List.getElem?_eq_getElem hlt] at hw
          cases hw
        · exact hge
      have hj : j < s.pool.workers.length := by
        rcases Nat.lt_or_ge j s.pool.workers.length with hlt | hge
        · exact hlt
        · rw [List.getElem?_eq_none hge] at hget
          cases hget
      exact h j w1 (by omega) hget
    | some w =>
      by_cases hf : w.finished = true
      · simp only [JoinedFinished, dtorStep, hdt, hw, hf, if_true]
        intro j w1 hj hget
        by_cases hjk : j = k
        · subst hjk
          rw [hw] at hget
          cases hget
          exact hf
        · exact h j w1 (by omega) hget
      · have : dtorStep s = s := by simp [dtorStep, hdt, hw, hf]
        rw [this]
        simp only [JoinedFinished, hdt]
        exact h

theorem step_joined (exec : Task → W → ExecResult W) (a : Actor) (s : PoolSystem Task W)
    (h : JoinedFinished s) : JoinedFinished (step exec a s) := by
  unfold step
  by_cases ht : s.terminated = true
  · rw [if_pos ht]
    exact h
  · rw [if_neg ht]
    cases a with
    | destructor => exact dtorStep_joined s h
    | worker i => exact workerStep_joined exec i s h

theorem run_joined (exec : Task → W → ExecResult W) (sched : List Actor)
    (s : PoolSystem Task W) (h : JoinedFinished s) : JoinedFinished (run exec sched s) := by
  induction sched generalizing s with
  | nil => exact h
  | cons a sched ih => exact ih (step exec a s) (step_joined exec a s h)

theorem heldTasks_of_finished (s : PoolSystem Task W)
    (h : ∀ w ∈ s.pool.workers, w.finished = true) : s.heldTasks = [] := by
  unfold heldTasks
  rw [List.flatMap_eq_nil_iff]
  intro w hw
  have hf := h w hw
  unfold WorkerThread.finished at hf
  unfold WorkerThread.held
  cases hpc : w.pc <;> simp [hpc] at hf ⊢

end PoolSystem

namespace PoolSystem

variable {Task W : Type}

theorem getElem?_set_same (ws : List (WorkerThread Task)) (i : Nat) (w w1 : WorkerThread Task)
    (hw : ws[i]? = some w) : (ws.set i w1)[i]? = some w1 := by
  have hlt : i < ws.length := by
    rcases Nat.lt_or_ge i ws.length with h | h
    · exact h
    · rw [List.getElem?_eq_none h] at hw
      cases hw
  simp [List.getElem?_set, hlt]

theorem worker_iteration (exec : Task → W → ExecResult W) (hsafe : OnlyStdFailures exec)
    (s : PoolSystem Task W) (i : Nat) (w : WorkerThread Task) (t : Task) (rest : List Task)
    (hterm : s.terminated = false) (hw : s.pool.workers[i]? = some w)
    (hr : w.running = true) (hpc : w.pc = WorkerPc.loopHead)
    (hq : s.pool.task_queue.queue = t :: rest) :
    (run exec [Actor.worker i, Actor.worker i, Actor.worker i] s).executed = s.executed ++ [t] ∧
    (run exec [Actor.worker i, Actor.worker i, Actor.worker i] s).pool.task_queue.queue = rest ∧
    (run exec [Actor.worker i, Actor.worker i, Actor.worker i] s).pool.task_queue.stop_flag
      = s.pool.task_queue.stop_flag ∧
    (run exec [Actor.worker i, Actor.worker i, Actor.worker i] s).pool.workers = s.pool.workers ∧
    (run exec [Actor.worker i, Actor.worker i, Actor.worker i] s).dtor = s.dtor ∧
    (run exec [Actor.worker i, Actor.worker i, Actor.worker i] s).terminated = false := by
  -- first step: the loop condition holds
  have e1 : step exec (Actor.worker i) s = s.setPc i w WorkerPc.popping := by
    simp [step, hterm, workerStep_loopHead exec i s w hw hpc, hr]
  -- second step: `pop` hands out `t`
  have hw1 : (s.setPc i w WorkerPc.popping).pool.workers[i]?
      = some { w with pc := WorkerPc.popping } := getElem?_set_same _ _ _ _ hw
  have hpop : (s.setPc i w WorkerPc.popping).pool.task_queue.pop
      = PopOutcome.task t { queue := rest, stop_flag := s.pool.task_queue.stop_flag } := by
    have : (s.setPc i w WorkerPc.popping).pool.task_queue
        = { queue := t :: rest, stop_flag := s.pool.task_queue.stop_flag } := by
      simp [setPc, ← hq]
    rw [this, TaskQueue.pop_cons]
  have e2 := workerStep_popping exec i _ _ hw1 rfl
  rw [hpop] at e2
  simp only at e2
  have t1 : (s.setPc i w WorkerPc.popping).terminated = false := hterm
  have e2s : step exec (Actor.worker i) (s.setPc i w WorkerPc.popping)
      = workerStep exec i (s.setPc i w WorkerPc.popping) := by
    simp [step, t1]
  -- third step: the call `task()`
  have h2w : (workerStep exec i (s.setPc i w WorkerPc.popping)).pool.workers
      = (s.pool.workers.set i { w with pc := WorkerPc.popping }).set i
          { w with pc := WorkerPc.executing t } := by
    rw [e2]
    rfl
  have h2q : (workerStep exec i (s.setPc i w WorkerPc.popping)).pool.task_queue
      = { queue := rest, stop_flag := s.pool.task_queue.stop_flag } := by
    rw [e2]
    rfl
  have h2e : (workerStep exec i (s.setPc i w WorkerPc.popping)).executed = s.executed := by
    rw [e2]
    rfl
  have h2d : (workerStep exec i (s.setPc i w WorkerPc.popping)).dtor = s.dtor := by
    rw [e2]
    rfl
  have h2t : (workerStep exec i (s.setPc i w WorkerPc.popping)).terminated = false := by
    rw [e2]
    exact hterm
  generalize workerStep exec i (s.setPc i w WorkerPc.popping) = s2 at e2s h2w h2q h2e h2d h2t
  have hw2 : s2.pool.workers[i]? = some { w with pc := WorkerPc.executing t } := by
    rw [h2w]
    exact getElem?_set_same _ _ _ _ hw1
  have e3 := workerStep_executing exec i s2 _ t hw2 rfl
  have hws : (s2.pool.workers.set i { w with pc := WorkerPc.loopHead }) = s.pool.workers := by
    rw [h2w, List.set_set, List.set_set]
    apply List.set_of_getElem?_eq
    rw [hw, ← hpc]
  have hrun : run exec [Actor.worker i, Actor.worker i, Actor.worker i] s
      = workerStep exec i s2 := by
    simp only [run, e1, e2s]
    simp [step, h2t]
  rw [hrun, e3]
  cases he : exec t s2.world with
  | returned world =>
    simp only [setPc, h2e, h2q, h2d, h2t, hws]
    simp
  | raised e world =>
    cases e with
    | stdException what =>
      simp only [setPc, h2e, h2q, h2d, h2t, hws]
      simp
    | other tag => exact absurd he (hsafe t s2.world tag world)

end PoolSystem

namespace PoolSystem

variable {Task W : Type}

theorem run_append (exec : Task → W → ExecResult W) (a b : List Actor) (s : PoolSystem Task W) :
    run exec (a ++ b) s = run exec b (run exec a s) := by
  induction a generalizing s with
  | nil => rfl
  | cons x a ih => exact ih (step exec x s)

theorem worker_drains (exec : Task → W → ExecResult W) (hsafe : OnlyStdFailures exec)
    (i : Nat) (w : WorkerThread Task) (hr : w.running = true) (hpc : w.pc = WorkerPc.loopHead)
    (ts : List Task) (s : PoolSystem Task W)
    (hterm : s.terminated = false) (hw : s.pool.workers[i]? = some w)
    (hq : s.pool.task_queue.queue = ts) :
    (run exec (List.replicate (3 * ts.length) (Actor.worker i)) s).executed = s.executed ++ ts ∧
    (run exec (List.replicate (3 * ts.length) (Actor.worker i)) s).pool.task_queue.queue = [] ∧
    (run exec (List.replicate (3 * ts.length) (Actor.worker i)) s).pool.task_queue.stop_flag
      = s.pool.task_queue.stop_flag ∧
    (run exec (List.replicate (3 * ts.length) (Actor.worker i)) s).pool.workers = s.pool.workers ∧
    (run exec (List.replicate (3 * ts.length) (Actor.worker i)) s).dtor = s.dtor ∧
    (run exec (List.replicate (3 * ts.length) (Actor.worker i)) s).terminated = false := by
  induction ts generalizing s with
  | nil => simp [run, hq, hterm]
  | cons t rest ih =>
    have hlen : 3 * (t :: rest).length = 3 + 3 * rest.length := by
      simp only [List.length_cons]
      omega
    have h3 : List.replicate 3 (Actor.worker i)
        = [Actor.worker i, Actor.worker i, Actor.worker i] := rfl
    rw [hlen, List.replicate_add, h3, run_append]
    obtain ⟨k1, k2, k3, k4, k5, k6⟩ := worker_iteration exec hsafe s i w t rest hterm hw hr hpc hq
    obtain ⟨j1, j2, j3, j4, j5, j6⟩ := ih _ k6 (by rw [k4]; exact hw) k2
    refine ⟨?_, j2, ?_, ?_, ?_, j6⟩
    · rw [j1, k1]
      simp
    · rw [j3, k3]
    · rw [j4, k4]
    · rw [j5, k5]

end PoolSystem

theorem PackagedTask.invoke_onlyStd {R : Type} :
    PoolSystem.OnlyStdFailures (PackagedTask.invoke : PackagedTask R → _ → _) := by
  intro t w k w1 h
  unfold PackagedTask.invoke at h
  split at h
  · split at h <;> cases h
  · cases h
  · cases h

/-! ## Theorems on teardown and on the result channel -/

/-- C2 (as stated, refuted): a pool of one worker, one task submitted and still
queued when the destructor is entered.  Under a schedule in which the destructor
stops the queue and the worker before the worker evaluates `while (running)`,
the body of the destructor returns with the worker finished, the task never
called and still in the queue, and its future not fulfilled; the destruction of
the members then destroys the task, and its future reports a broken promise. -/
theorem teardown_drops_queued_task :
    singleThreadSubmit.1 = Except.ok { cell := 0 } ∧
    1 ≤ singleThreadTeardown.pool.size ∧
    singleThreadTeardown.pool.task_queue.queue.length = 1 ∧
    (PoolSystem.run PackagedTask.invoke stopFirstSchedule singleThreadTeardown).dtor
      = DtorPc.returned ∧
    (PoolSystem.run PackagedTask.invoke stopFirstSchedule singleThreadTeardown).terminated
      = false ∧
    (PoolSystem.run PackagedTask.invoke stopFirstSchedule singleThreadTeardown).executed.length
      = 0 ∧
    (PoolSystem.run PackagedTask.invoke stopFirstSchedule
      singleThreadTeardown).pool.task_queue.queue.length = 1 ∧
    Future.get { cell := 0 }
      (PoolSystem.run PackagedTask.invoke stopFirstSchedule singleThreadTeardown).world
      = GetResult.blocked ∧
    (PoolSystem.destroyMembers PackagedTask.abandon
      (PoolSystem.run PackagedTask.invoke stopFirstSchedule singleThreadTeardown)).map
        (fun r => (r.executed.length, r.discarded.length)) = some (0, 1) ∧
    (PoolSystem.destroyMembers PackagedTask.abandon
      (PoolSystem.run PackagedTask.invoke stopFirstSchedule singleThreadTeardown)).map
        (fun r => Future.get { cell := 0 } r.world) = some (GetResult.raised brokenPromise) :=
  ⟨rfl, by decide, rfl, rfl, rfl, rfl, rfl, rfl, rfl, rfl⟩

/-- C2 (amended).  (1) The queue stop that begins teardown removes no task and
makes every later `push` return `false`.  (2) Under every schedule, when the
body of the destructor has returned every worker has finished, and the tasks
that were held or queued when teardown began are, each exactly once, either
called or still in the queue, never called; the destruction of the members
that ends teardown then destroys exactly the tasks still in the queue, so that
each task has been called or discarded, and nothing is discarded exactly when
the queue is empty by then.  (3) A task queued by `submit` that is discarded
with its shared state pending leaves a broken promise in its future.  (4) A
worker that is at its loop head with `running` set and is the only thread
scheduled, for three steps per task, right after the queue stop calls all the
queued tasks in FIFO order and empties the queue, given that no task raises
anything but a `std::exception`.  (5) A worker that evaluates its loop
condition with `running` cleared leaves the loop: it finishes without touching
the queue and without calling a task. -/
theorem teardown_calls_or_keeps {Task W : Type} (exec : Task → W → ExecResult W)
    (drop : Task → W → W) (pool : ThreadPool Task) (world : W) :
    ((PoolSystem.dtorStep (PoolSystem.teardownStart pool world)).pool.task_queue.queue
        = pool.task_queue.queue ∧
      ∀ t, ((PoolSystem.dtorStep
        (PoolSystem.teardownStart pool world)).pool.task_queue.push t).1 = false) ∧
    (∀ sched,
      (PoolSystem.run exec sched (PoolSystem.teardownStart pool world)).dtor = DtorPc.returned →
      (∀ w ∈ (PoolSystem.run exec sched (PoolSystem.teardownStart pool world)).pool.workers,
        w.finished = true) ∧
      List.Perm
        ((PoolSystem.run exec sched (PoolSystem.teardownStart pool world)).executed ++
          (PoolSystem.run exec sched (PoolSystem.teardownStart pool world)).pool.task_queue.queue)
        (pool.workers.flatMap WorkerThread.held ++ pool.task_queue.queue) ∧
      ∃ r, PoolSystem.destroyMembers drop
          (PoolSystem.run exec sched (PoolSystem.teardownStart pool world)) = some r ∧
        r.executed = (PoolSystem.run exec sched (PoolSystem.teardownStart pool world)).executed ∧
        r.discarded
          = (PoolSystem.run exec sched (PoolSystem.teardownStart pool world)).pool.task_queue.queue ∧
        r.world = r.discarded.foldl (fun w t => drop t w)
          (PoolSystem.run exec sched (PoolSystem.teardownStart pool world)).world ∧
        List.Perm (r.executed ++ r.discarded)
          (pool.workers.flatMap WorkerThread.held ++ pool.task_queue.queue) ∧
        (r.discarded = [] ↔
          (PoolSystem.run exec sched
            (PoolSystem.teardownStart pool world)).pool.task_queue.queue = [])) ∧
    (∀ (R : Type) (t : PackagedTask R) (h : FutureHeap R),
      h[t.cell]? = some SharedState.pending →
      Future.get { cell := t.cell } (t.abandon h) = GetResult.raised brokenPromise) ∧
    (∀ i w, PoolSystem.OnlyStdFailures exec → pool.workers[i]? = some w →
      w.running = true → w.pc = WorkerPc.loopHead →
      (PoolSystem.run exec
        (Actor.destructor :: List.replicate (3 * pool.task_queue.queue.length) (Actor.worker i))
        (PoolSystem.teardownStart pool world)).executed = pool.task_queue.queue ∧
      (PoolSystem.run exec
        (Actor.destructor :: List.replicate (3 * pool.task_queue.queue.length) (Actor.worker i))
        (PoolSystem.teardownStart pool world)).pool.task_queue.queue = [] ∧
      (PoolSystem.run exec
        (Actor.destructor :: List.replicate (3 * pool.task_queue.queue.length) (Actor.worker i))
        (PoolSystem.teardownStart pool world)).terminated = false) ∧
    (∀ (s : PoolSystem Task W) i w, s.terminated = false → s.pool.workers[i]? = some w →
      w.pc = WorkerPc.loopHead → w.running = false →
      PoolSystem.step exec (Actor.worker i) s = s.setPc i w WorkerPc.exited ∧
      (PoolSystem.step exec (Actor.worker i) s).pool.task_queue = s.pool.task_queue ∧
      (PoolSystem.step exec (Actor.worker i) s).executed = s.executed ∧
      (PoolSystem.step exec (Actor.worker i) s).pool.workers[i]?
        = some { w with pc := WorkerPc.exited }) := by
  refine ⟨⟨rfl, fun t => rfl⟩, ?_, ?_, ?_, ?_⟩
  · intro sched hret
    have hj := PoolSystem.run_joined exec sched (PoolSystem.teardownStart pool world) trivial
    simp only [PoolSystem.JoinedFinished, hret] at hj
    have hfin : ∀ w ∈ (PoolSystem.run exec sched
        (PoolSystem.teardownStart pool world)).pool.workers, w.finished = true := by
      intro w hw
      obtain ⟨j, hj1⟩ := List.mem_iff_getElem?.mp hw
      exact hj j w hj1
    have hp := PoolSystem.run_perm exec sched (PoolSystem.teardownStart pool world)
    simp only [PoolSystem.allTasks, PoolSystem.heldTasks_of_finished _ hfin] at hp
    have hperm : List.Perm
        ((PoolSystem.run exec sched (PoolSystem.teardownStart pool world)).executed ++
          (PoolSystem.run exec sched (PoolSystem.teardownStart pool world)).pool.task_queue.queue)
        (pool.workers.flatMap WorkerThread.held ++ pool.task_queue.queue) := by
      simpa [PoolSystem.teardownStart, PoolSystem.heldTasks] using hp
    refine ⟨hfin, hperm,
      { executed := (PoolSystem.run exec sched (PoolSystem.teardownStart pool world)).executed,
        discarded :=
          (PoolSystem.run exec sched (PoolSystem.teardownStart pool world)).pool.task_queue.queue,
        world :=
          (PoolSystem.run exec sched
            (PoolSystem.teardownStart pool world)).pool.task_queue.queue.foldl
            (fun w t => drop t w)
            (PoolSystem.run exec sched (PoolSystem.teardownStart pool world)).world },
      ?_, rfl, rfl, rfl, hperm, Iff.rfl⟩
    simp only [PoolSystem.destroyMembers, hret]
  · intro R t h hpend
    have hlt : t.cell < h.length := by
      rcases Nat.lt_or_ge t.cell h.length with hlt | hge
      · exact hlt
      · rw [List.getElem?_eq_none hge] at hpend
        cases hpend
    simp [PackagedTask.abandon, Future.get, hpend, List.getElem?_set, hlt]
  · intro i w hsafe hw hr hpc
    have h := PoolSystem.worker_drains exec hsafe i w hr hpc pool.task_queue.queue
      (PoolSystem.dtorStep (PoolSystem.teardownStart pool world)) rfl hw rfl
    have hstep : PoolSystem.step exec Actor.destructor (PoolSystem.teardownStart pool world)
        = PoolSystem.dtorStep (PoolSystem.teardownStart pool world) := rfl
    simp only [PoolSystem.run, hstep]
    obtain ⟨h1, h2, _, _, _, h6⟩ := h
    exact ⟨by simpa [PoolSystem.dtorStep, PoolSystem.teardownStart] using h1, h2, h6⟩
  · intro s i w hterm hw hpc hr
    have hstep : PoolSystem.step exec (Actor.worker i) s = s.setPc i w WorkerPc.exited := by
      simp [PoolSystem.step, hterm, PoolSystem.workerStep_loopHead exec i s w hw hpc, hr]
    rw [hstep]
    exact ⟨rfl, rfl, rfl, PoolSystem.getElem?_set_same _ _ _ _ hw⟩

/-- Witness for C2 (amended), on the pool of one worker with one queued task:
under the schedule that stops the worker first the task is discarded and its
future is left with a broken promise; the schedule that lets worker 0 run alone
after the queue stop calls it; and the worker that finds `running` cleared
finishes. -/
theorem teardown_calls_or_keeps_witness :
    (∃ r, PoolSystem.destroyMembers PackagedTask.abandon
        (PoolSystem.run PackagedTask.invoke stopFirstSchedule singleThreadTeardown) = some r ∧
      List.Perm (r.executed ++ r.discarded)
        (singleThreadSubmit.2.1.workers.flatMap WorkerThread.held ++
          singleThreadSubmit.2.1.task_queue.queue)) ∧
    Future.get { cell := 0 }
        (PackagedTask.abandon { fn := fun _ => Except.ok 42, cell := 0 }
          ([SharedState.pending] : FutureHeap Nat))
      = GetResult.raised brokenPromise ∧
    (PoolSystem.run PackagedTask.invoke
      (Actor.destructor ::
        List.replicate (3 * singleThreadSubmit.2.1.task_queue.queue.length) (Actor.worker 0))
      singleThreadTeardown).executed = singleThreadSubmit.2.1.task_queue.queue ∧
    (PoolSystem.step PackagedTask.invoke (Actor.worker 0)
      (PoolSystem.run PackagedTask.invoke
        [Actor.destructor, Actor.destructor, Actor.destructor]
        singleThreadTeardown)).pool.workers[0]?
      = some { running := false, pc := WorkerPc.exited } := by
  obtain ⟨_, h2, h3, h4, h5⟩ := teardown_calls_or_keeps PackagedTask.invoke
    PackagedTask.abandon singleThreadSubmit.2.1 singleThreadSubmit.2.2
  obtain ⟨_, _, r, hr, _, _, _, hperm, _⟩ := h2 stopFirstSchedule rfl
  exact ⟨⟨r, hr, hperm⟩,
    h3 Nat { fn := fun _ => Except.ok 42, cell := 0 } [SharedState.pending] rfl,
    (h4 0 WorkerThread.new PackagedTask.invoke_onlyStd rfl rfl rfl).1,
    (h5 (PoolSystem.run PackagedTask.invoke
        [Actor.destructor, Actor.destructor, Actor.destructor] singleThreadTeardown)
      0 { running := false, pc := WorkerPc.loopHead } rfl rfl rfl rfl).2.2.2⟩

/-- Witness for C5: on a fresh pool of four workers `submit` returns the future
of cell 0; after the queue has been stopped it raises. -/
theorem threadPool_submit_spec_witness :
    (ThreadPool.submit (ThreadPool.new 4) ([] : FutureHeap Nat)
        (fun n : Nat => Except.ok (n + 1)) 41).1 = Except.ok { cell := 0 } ∧
    (ThreadPool.submit
        { (ThreadPool.new 4 : ThreadPool (PackagedTask Nat)) with
          task_queue := TaskQueue.stop TaskQueue.new }
        ([] : FutureHeap Nat) (fun n : Nat => Except.ok (n + 1)) 41).2
      = ({ (ThreadPool.new 4 : ThreadPool (PackagedTask Nat)) with
            task_queue := TaskQueue.stop TaskQueue.new }, []) :=
  ⟨by rw [(threadPool_submit_spec (ThreadPool.new 4) ([] : FutureHeap Nat)
        (fun n : Nat => Except.ok (n + 1)) 41).2.2 rfl]; rfl,
   (threadPool_submit_spec
      { (ThreadPool.new 4 : ThreadPool (PackagedTask Nat)) with
        task_queue := TaskQueue.stop TaskQueue.new }
      ([] : FutureHeap Nat) (fun n : Nat => Except.ok (n + 1)) 41).2.1 rfl⟩

/-- C6: the task that a successful `submit` queues routes the outcome of the
call into the returned future.  Run on any heap in which its shared state is
still pending (as it is right after `submit`), the queued task returns normally
in both cases: when `f args` yields `v` the shared state holds `v` and `get`
returns `v`; when `f args` raises `e` the shared state holds `e` and `get`
raises that same `e`. -/
theorem submit_routes_outcome {A R : Type} (p : ThreadPool (PackagedTask R))
    (h : FutureHeap R) (f : A → Except Failure R) (args : A)
    (hq : p.task_queue.stop_flag = false) :
    ∃ t : PackagedTask R,
      (ThreadPool.submit p h f args).1 = Except.ok { cell := h.length } ∧
      (ThreadPool.submit p h f args).2.1.task_queue.queue = p.task_queue.queue ++ [t] ∧
      (ThreadPool.submit p h f args).2.2[h.length]? = some SharedState.pending ∧
      ∀ h1 : FutureHeap R, h1[h.length]? = some SharedState.pending →
        (∀ v, f args = Except.ok v →
          t.invoke h1 = ExecResult.returned (h1.set h.length (SharedState.value v)) ∧
          Future.get { cell := h.length } (h1.set h.length (SharedState.value v))
            = GetResult.value v) ∧
        (∀ e, f args = Except.error e →
          t.invoke h1 = ExecResult.returned (h1.set h.length (SharedState.failure e)) ∧
          Future.get { cell := h.length } (h1.set h.length (SharedState.failure e))
            = GetResult.raised e) := by
  refine ⟨{ fn := fun _ => f args, cell := h.length }, ?_, ?_, ?_, ?_⟩
  · simp [ThreadPool.submit, TaskQueue.push, hq]
  · simp [ThreadPool.submit, TaskQueue.push, hq]
  · simp [ThreadPool.submit, TaskQueue.push, hq]
  · intro h1 hpend
    have hlt : h.length < h1.length := by
      rcases Nat.lt_or_ge h.length h1.length with hlt | hge
      · exact hlt
      · rw [List.getElem?_eq_none hge] at hpend
        cases hpend
    constructor
    · intro v hv
      simp [PackagedTask.invoke, Future.get, hpend, hv, List.getElem?_set, hlt]
    · intro e he
      simp [PackagedTask.invoke, Future.get, hpend, he, List.getElem?_set, hlt]

/-- Witness for C6, with the callables of `ThreadPoolTest.RetornoValores`
(`a + b` on 10 and 20) and `ThreadPoolTest.TratamentoExcecoes` (a callable that
throws `std::runtime_error("Erro simulado")`). -/
theorem submit_routes_outcome_witness :
    (∃ t : PackagedTask Int,
      (ThreadPool.submit (ThreadPool.new 4) [] (fun ab : Int × Int => Except.ok (ab.1 + ab.2))
        (10, 20)).2.1.task_queue.queue = [t] ∧
      t.invoke [SharedState.pending] = ExecResult.returned [SharedState.value 30] ∧
      Future.get { cell := 0 } [SharedState.value (30 : Int)] = GetResult.value 30) ∧
    (∃ t : PackagedTask Int,
      (ThreadPool.submit (ThreadPool.new 4) []
        (fun _ : Unit => Except.error (Failure.stdException "Erro simulado"))
        ()).2.1.task_queue.queue = [t] ∧
      t.invoke [SharedState.pending]
        = ExecResult.returned [SharedState.failure (Failure.stdException "Erro simulado")] ∧
      Future.get { cell := 0 }
          ([SharedState.failure (Failure.stdException "Erro simulado")] : FutureHeap Int)
        = GetResult.raised (Failure.stdException "Erro simulado")) := by
  constructor
  · obtain ⟨t, _, h2, _, h4⟩ := submit_routes_outcome (ThreadPool.new 4) ([] : FutureHeap Int)
      (fun ab : Int × Int => Except.ok (ab.1 + ab.2)) (10, 20) rfl
    obtain ⟨h5, h6⟩ := (h4 [SharedState.pending] rfl).1 30 rfl
    exact ⟨t, h2, h5, h6⟩
  · obtain ⟨t, _, h2, _, h4⟩ := submit_routes_outcome (ThreadPool.new 4) ([] : FutureHeap Int)
      (fun _ : Unit => Except.error (Failure.stdException "Erro simulado")) () rfl
    obtain ⟨h5, h6⟩ := (h4 [SharedState.pending] rfl).2 _ rfl
    exact ⟨t, h2, h5, h6⟩

/-! ## Theorems on `ResourceManager` -/

namespace ResourceManager

theorem size_eq_keys {Key R : Type} (m : ResourceManager Key R) :
    m.size = m.resources.keys.length := by
  simp [size, AList.keys, List.keys]

theorem contains_iff {Key R : Type} [DecidableEq Key] (m : ResourceManager Key R) (key : Key) :
    m.contains key = true ↔ key ∈ m.resources.keys := by
  rw [contains, AList.lookup_isSome, AList.mem_keys]

end ResourceManager

/-- C8: `get_read_access` and `get_write_access` throw exactly when the key is
absent from the map, and what they throw then is the resource-not-found error;
on an absent key the call yields no guard and the manager, the mutex of every
resource included, is as before. -/
theorem access_fails_iff_absent {Key R : Type} [DecidableEq Key] [ToString Key]
    (m : ResourceManager Key R) (key : Key) :
    ((∃ e, (m.get_read_access key).1 = AccessResult.raised e) ↔ m.contains key = false) ∧
    ((∃ e, (m.get_write_access key).1 = AccessResult.raised e) ↔ m.contains key = false) ∧
    (m.contains key = false →
      m.get_read_access key = (AccessResult.raised (ResourceManager.notFound key), m) ∧
      m.get_write_access key = (AccessResult.raised (ResourceManager.notFound key), m)) := by
  cases hl : m.resources.lookup key with
  | none =>
    simp [ResourceManager.get_read_access, ResourceManager.get_write_access,
      ResourceManager.contains, hl]
  | some sr =>
    have hr : ¬ ∃ e, (m.get_read_access key).1 = AccessResult.raised e := by
      rintro ⟨e, he⟩
      unfold ResourceManager.get_read_access at he
      rw [hl] at he
      cases hlr : sr.lock_read with
      | none => simp [hlr] at he
      | some p => simp [hlr] at he
    have hw : ¬ ∃ e, (m.get_write_access key).1 = AccessResult.raised e := by
      rintro ⟨e, he⟩
      unfold ResourceManager.get_write_access at he
      rw [hl] at he
      cases hlw : sr.lock_write with
      | none => simp [hlw] at he
      | some p => simp [hlw] at he
    have hc : m.contains key = true := by simp [ResourceManager.contains, hl]
    simp [hr, hw, hc]

/-- Witness for C8, the test `RecursoInexistente`: on the fixture the key
`"inexistente"` is absent and both calls throw, leaving the manager as it was. -/
theorem access_fails_iff_absent_witness :
    ResourceManager.fixture.get_read_access "inexistente"
      = (AccessResult.raised (ResourceManager.notFound "inexistente"),
         ResourceManager.fixture) ∧
    ResourceManager.fixture.get_write_access "inexistente"
      = (AccessResult.raised (ResourceManager.notFound "inexistente"),
         ResourceManager.fixture) :=
  (access_fails_iff_absent ResourceManager.fixture "inexistente").2.2 (by decide)

/-- C9: after `remove_resource(k)`, `contains(k)` is false and both access
calls on `k` throw resource-not-found; every other key has the entry it had;
`size()` is one less if `k` was present and the same otherwise. -/
theorem remove_resource_spec {Key R : Type} [DecidableEq Key] [ToString Key]
    (m : ResourceManager Key R) (k : Key) :
    (m.remove_resource k).contains k = false ∧
    (m.remove_resource k).get_read_access k
      = (AccessResult.raised (ResourceManager.notFound k), m.remove_resource k) ∧
    (m.remove_resource k).get_write_access k
      = (AccessResult.raised (ResourceManager.notFound k), m.remove_resource k) ∧
    (∀ k1, k1 ≠ k →
      (m.remove_resource k).resources.lookup k1 = m.resources.lookup k1 ∧
      (m.remove_resource k).contains k1 = m.contains k1) ∧
    (m.contains k = true → (m.remove_resource k).size + 1 = m.size) ∧
    (m.contains k = false → (m.remove_resource k).size = m.size) := by
  have hl : (m.remove_resource k).resources.lookup k = none := AList.lookup_erase k _
  refine ⟨?_, ?_, ?_, ?_, ?_, ?_⟩
  · simp [ResourceManager.contains, hl]
  · simp [ResourceManager.get_read_access, hl]
  · simp [ResourceManager.get_write_access, hl]
  · intro k1 hk
    have h1 : (m.remove_resource k).resources.lookup k1 = m.resources.lookup k1 :=
      AList.lookup_erase_ne hk
    exact ⟨h1, by simp [ResourceManager.contains, h1]⟩
  · intro hc
    have hmem := (ResourceManager.contains_iff m k).mp hc
    rw [ResourceManager.size_eq_keys, ResourceManager.size_eq_keys]
    simp only [ResourceManager.remove_resource, AList.keys_erase]
    rw [List.length_erase_of_mem hmem]
    have hpos : 0 < m.resources.keys.length := List.length_pos_of_mem hmem
    omega
  · intro hc
    have hnot : k ∉ m.resources.keys := by
      intro hmem
      rw [(ResourceManager.contains_iff m k).mpr hmem] at hc
      cases hc
    rw [ResourceManager.size_eq_keys, ResourceManager.size_eq_keys]
    simp only [ResourceManager.remove_resource, AList.keys_erase]
    rw [List.erase_of_not_mem hnot]

/-- Witness for C9, the test `GerenciamentoRecursos`: removing `"data"` from
the fixture leaves `"config"` as it was and one entry. -/
theorem remove_resource_spec_witness :
    ((ResourceManager.fixture.remove_resource "data").resources.lookup "config"
        = ResourceManager.fixture.resources.lookup "config" ∧
      (ResourceManager.fixture.remove_resource "data").contains "config"
        = ResourceManager.fixture.contains "config") ∧
    (ResourceManager.fixture.remove_resource "data").size + 1 = ResourceManager.fixture.size ∧
    (ResourceManager.fixture.remove_resource "novo").size = ResourceManager.fixture.size :=
  ⟨(remove_resource_spec ResourceManager.fixture "data").2.2.2.1 "config" (by decide),
   (remove_resource_spec ResourceManager.fixture "data").2.2.2.2.1 (by decide),
   (remove_resource_spec ResourceManager.fixture "novo").2.2.2.2.2 (by decide)⟩

/-- C10: `add_resource(k, v)` inserts or replaces.  Afterwards `contains(k)` is
true and read access to `k` is granted at once with a guard on `v`, whether or
not `k` was there before; keys stay unique; `size()` is one more when `k` was
absent and the same when it was present; every other key has the entry it
had. -/
theorem add_resource_spec {Key R : Type} [DecidableEq Key] [ToString Key]
    (m : ResourceManager Key R) (k : Key) (v : R) :
    (m.add_resource k v).contains k = true ∧
    (m.add_resource k v).resources.lookup k = some (SharedResource.new v) ∧
    ((m.add_resource k v).get_read_access k).1 = AccessResult.granted { resource := v } ∧
    (∀ (T : Type) (mem : R → T) (g : ReadLock R),
      ((m.add_resource k v).get_read_access k).1 = AccessResult.granted g →
        g.deref mem = mem v) ∧
    (m.add_resource k v).resources.keys.Nodup ∧
    (m.contains k = false → (m.add_resource k v).size = m.size + 1) ∧
    (m.contains k = true → (m.add_resource k v).size = m.size) ∧
    (∀ k1, k1 ≠ k →
      (m.add_resource k v).resources.lookup k1 = m.resources.lookup k1 ∧
      (m.add_resource k v).contains k1 = m.contains k1) := by
  have hl : (m.add_resource k v).resources.lookup k = some (SharedResource.new v) :=
    AList.lookup_insert _
  have hg : ((m.add_resource k v).get_read_access k).1
      = AccessResult.granted { resource := v } := by
    simp [ResourceManager.get_read_access, hl, SharedResource.lock_read, SharedResource.new,
      SharedMutex.lock_shared, SharedMutex.free]
  refine ⟨?_, hl, hg, ?_, AList.keys_nodup _, ?_, ?_, ?_⟩
  · simp [ResourceManager.contains, hl]
  · intro T mem g h
    rw [hg] at h
    cases h
    rfl
  · intro hc
    have hnot : k ∉ m.resources.keys := by
      intro hmem
      rw [(ResourceManager.contains_iff m k).mpr hmem] at hc
      cases hc
    rw [ResourceManager.size_eq_keys, ResourceManager.size_eq_keys]
    simp only [ResourceManager.add_resource, AList.keys_insert]
    rw [List.erase_of_not_mem hnot]
    rfl
  · intro hc
    have hmem := (ResourceManager.contains_iff m k).mp hc
    rw [ResourceManager.size_eq_keys, ResourceManager.size_eq_keys]
    simp only [ResourceManager.add_resource, AList.keys_insert]
    rw [List.length_cons, List.length_erase_of_mem hmem]
    have hpos : 0 < m.resources.keys.length := List.length_pos_of_mem hmem
    omega
  · intro k1 hk
    have h1 : (m.add_resource k v).resources.lookup k1 = m.resources.lookup k1 :=
      AList.lookup_insert_ne hk
    exact ⟨h1, by simp [ResourceManager.contains, h1]⟩

/-- Witness for C10, the test `GerenciamentoRecursos`: adding `"novo"` to the
fixture makes three entries, adding `"data"` again keeps two, and `"config"`
keeps its entry. -/
theorem add_resource_spec_witness :
    (ResourceManager.fixture.add_resource "novo" 2).size = ResourceManager.fixture.size + 1 ∧
    (ResourceManager.fixture.add_resource "data" 2).size = ResourceManager.fixture.size ∧
    ((ResourceManager.fixture.add_resource "data" 2).resources.lookup "config"
        = ResourceManager.fixture.resources.lookup "config" ∧
      (ResourceManager.fixture.add_resource "data" 2).contains "config"
        = ResourceManager.fixture.contains "config") ∧
    ReadLock.deref (fun p : Nat => 100 * p) { resource := 2 } = 200 :=
  ⟨(add_resource_spec ResourceManager.fixture "novo" 2).2.2.2.2.2.1 (by decide),
   (add_resource_spec ResourceManager.fixture "data" 2).2.2.2.2.2.2.1 (by decide),
   (add_resource_spec ResourceManager.fixture "data" 2).2.2.2.2.2.2.2 "config" (by decide),
   (add_resource_spec ResourceManager.fixture "data" 2).2.2.2.1 Nat (fun p => 100 * p)
     { resource := 2 } (add_resource_spec ResourceManager.fixture "data" 2).2.2.1⟩

/-! ## Theorems on the lock of one resource -/

namespace GuardedResource

variable {R : Type}

theorem step_consistent (s : GuardedResource R) (e : LockEvent) (h : Consistent s) :
    Consistent (s.step e) := by
  obtain ⟨⟨res, ⟨readers, writer⟩⟩, rl, wl⟩ := s
  have h0 := h
  obtain ⟨h1, h2, h3⟩ := h
  simp only at h1 h2 h3
  cases e with
  | acquireRead =>
    cases writer with
    | true =>
      have hs : step ⟨⟨res, ⟨readers, true⟩⟩, rl, wl⟩ LockEvent.acquireRead
          = ⟨⟨res, ⟨readers, true⟩⟩, rl, wl⟩ := by
        simp [step, SharedResource.lock_read, SharedMutex.lock_shared]
      rw [hs]
      exact h0
    | false =>
      have hs : step ⟨⟨res, ⟨readers, false⟩⟩, rl, wl⟩ LockEvent.acquireRead
          = ⟨⟨res, ⟨readers + 1, false⟩⟩, { resource := res } :: rl, wl⟩ := by
        simp [step, SharedResource.lock_read, SharedMutex.lock_shared]
      rw [hs]
      refine ⟨?_, ?_, h3⟩
      · simp [h1]
      · intro hf
        cases hf
  | acquireWrite =>
    by_cases hfree : writer = false ∧ readers = 0
    · obtain ⟨hw, hr⟩ := hfree
      subst hw
      subst hr
      have hs : step ⟨⟨res, ⟨0, false⟩⟩, rl, wl⟩ LockEvent.acquireWrite
          = ⟨⟨res, ⟨0, true⟩⟩, rl, { resource := res } :: wl⟩ := by
        simp [step, SharedResource.lock_write, SharedMutex.lock]
      rw [hs]
      have hwl : wl = [] := h3 rfl
      have hrl : rl = [] := List.length_eq_zero.mp h1.symm
      refine ⟨h1, ?_, ?_⟩
      · intro _
        simp [hwl, hrl]
      · intro hf
        cases hf
    · have hb : (writer || readers != 0) = true := by
        cases writer with
        | true => rfl
        | false =>
          have : readers ≠ 0 := fun hr => hfree ⟨rfl, hr⟩
          simpa using this
      have hs : step ⟨⟨res, ⟨readers, writer⟩⟩, rl, wl⟩ LockEvent.acquireWrite
          = ⟨⟨res, ⟨readers, writer⟩⟩, rl, wl⟩ := by
        simp only [step, SharedResource.lock_write, SharedMutex.lock, hb, if_true]
      rw [hs]
      exact h0
  | releaseRead =>
    cases rl with
    | nil => exact h0
    | cons g rest =>
      have hs : step ⟨⟨res, ⟨readers, writer⟩⟩, g :: rest, wl⟩ LockEvent.releaseRead
          = ⟨⟨res, ⟨readers - 1, writer⟩⟩, rest, wl⟩ := rfl
      rw [hs]
      refine ⟨?_, ?_, h3⟩
      · simp only [List.length_cons] at h1
        simp only
        omega
      · intro hw
        have := (h2 hw).2
        cases this
  | releaseWrite =>
    cases wl with
    | nil => exact h0
    | cons g rest =>
      have hs : step ⟨⟨res, ⟨readers, writer⟩⟩, rl, g :: rest⟩ LockEvent.releaseWrite
          = ⟨⟨res, ⟨readers, false⟩⟩, rl, rest⟩ := rfl
      rw [hs]
      cases writer with
      | false =>
        have := h3 rfl
        cases this
      | true =>
        have hlen := (h2 rfl).1
        refine ⟨h1, ?_, ?_⟩
        · intro hf
          cases hf
        · intro _
          show rest = []
          simp only [List.length_cons] at hlen
          exact List.length_eq_zero.mp (by omega)

theorem run_consistent (es : List LockEvent) (s : GuardedResource R) (h : Consistent s) :
    Consistent (run es s) := by
  induction es generalizing s with
  | nil => exact h
  | cons e es ih => exact ih (s.step e) (step_consistent s e h)

theorem fresh_consistent (resource : R) : Consistent (fresh resource) := by
  simp [Consistent, fresh, SharedResource.new, SharedMutex.free]

theorem run_acquireRead (n : Nat) (s : GuardedResource R) (h : s.shared.mutex.writer = false) :
    (run (List.replicate n LockEvent.acquireRead) s).readLocks.length = s.readLocks.length + n ∧
    (run (List.replicate n LockEvent.acquireRead) s).writeLocks = s.writeLocks ∧
    (run (List.replicate n LockEvent.acquireRead) s).shared.mutex.writer = false := by
  induction n generalizing s with
  | zero => simp [run, h]
  | succ n ih =>
    have hs : s.step LockEvent.acquireRead =
        { s with shared := { s.shared with mutex := { s.shared.mutex with
                    readers := s.shared.mutex.readers + 1 } },
                 readLocks := { resource := s.shared.resource } :: s.readLocks } := by
      simp [step, SharedResource.lock_read, SharedMutex.lock_shared, h]
    obtain ⟨i1, i2, i3⟩ := ih (s.step LockEvent.acquireRead) (by rw [hs]; exact h)
    rw [List.replicate_succ, run]
    refine ⟨?_, ?_, i3⟩
    · rw [i1, hs]
      simp
      omega
    · rw [i2, hs]

end GuardedResource

/-- C12: reader/writer exclusivity.  In every state of a resource reached from
its construction by calls of `lock_read` / `lock_write` and by guards going out
of scope, there is at most one `WriteLock`, and while there is one there is no
`ReadLock`; and for every `n` the state with `n` `ReadLock`s alive at once (and
no `WriteLock`) is reached by `n` calls of `lock_read`. -/
theorem readers_writer_exclusive {R : Type} (resource : R) (es : List LockEvent) (n : Nat) :
    (GuardedResource.run es (GuardedResource.fresh resource)).writeLocks.length ≤ 1 ∧
    ((GuardedResource.run es (GuardedResource.fresh resource)).writeLocks ≠ [] →
      (GuardedResource.run es (GuardedResource.fresh resource)).readLocks = []) ∧
    (GuardedResource.run (List.replicate n LockEvent.acquireRead)
      (GuardedResource.fresh resource)).readLocks.length = n ∧
    (GuardedResource.run (List.replicate n LockEvent.acquireRead)
      (GuardedResource.fresh resource)).writeLocks = [] := by
  obtain ⟨_, h2, h3⟩ := GuardedResource.run_consistent es _
    (GuardedResource.fresh_consistent resource)
  obtain ⟨k1, k2, _⟩ := GuardedResource.run_acquireRead n (GuardedResource.fresh resource) rfl
  refine ⟨?_, ?_, by simpa [GuardedResource.fresh] using k1, by simpa [GuardedResource.fresh] using k2⟩
  · cases hw : (GuardedResource.run es (GuardedResource.fresh resource)).shared.mutex.writer with
    | true => rw [(h2 hw).1]
    | false => rw [h3 hw]; simp
  · intro hne
    cases hw : (GuardedResource.run es (GuardedResource.fresh resource)).shared.mutex.writer with
    | true => exact (h2 hw).2
    | false => exact absurd (h3 hw) hne

/-- Witness for C12: with a `WriteLock` alive a call of `lock_read` has to wait
and makes no guard; once it has gone out of scope two readers are admitted. -/
theorem readers_writer_exclusive_witness :
    (GuardedResource.run [LockEvent.acquireWrite, LockEvent.acquireRead]
      (GuardedResource.fresh (0 : Nat))).readLocks = [] ∧
    (GuardedResource.run [LockEvent.acquireWrite, LockEvent.acquireRead,
        LockEvent.releaseWrite, LockEvent.acquireRead, LockEvent.acquireRead,
        LockEvent.acquireWrite]
      (GuardedResource.fresh (0 : Nat))).writeLocks.length ≤ 1 :=
  ⟨(readers_writer_exclusive (0 : Nat) [LockEvent.acquireWrite, LockEvent.acquireRead] 0).2.1
      (by decide),
   (readers_writer_exclusive (0 : Nat) [LockEvent.acquireWrite, LockEvent.acquireRead,
        LockEvent.releaseWrite, LockEvent.acquireRead, LockEvent.acquireRead,
        LockEvent.acquireWrite] 0).1⟩

/-! ## Lemmas on the manager with its values -/

theorem AList.lookup_replace_self {α : Type} {β : α → Type} [DecidableEq α] (a : α) (b : β a)
    (s : AList β) (h : a ∈ s) : (s.replace a b).lookup a = some b := by
  obtain ⟨l, nd⟩ := s
  simp only [AList.lookup, AList.replace]
  have hk : a ∈ l.keys := h
  clear nd h
  induction l with
  | nil => simp at hk
  | cons x xs ih =>
    obtain ⟨xa, xb⟩ := x
    by_cases hx : a = xa
    · subst hx
      simp [List.kreplace, List.lookmap_cons_some]
    · have hk2 : a ∈ xs.keys := by
        simp [List.keys] at hk
        rcases hk with hk | hk
        · exact absurd hk hx
        · simpa [List.keys] using hk
      have h2 := ih hk2
      simp only [List.kreplace] at h2 ⊢
      rw [List.lookmap_cons_none _ _ (by simp [hx])]
      rw [List.dlookup_cons_ne _ _ hx]
      exact h2

theorem AList.mem_of_lookup_eq_some {α : Type} {β : α → Type} [DecidableEq α] (a : α) (b : β a)
    (s : AList β) (h : s.lookup a = some b) : a ∈ s := by
  rw [← AList.lookup_isSome, h]
  rfl

namespace ValueHeap

variable {T : Type}

theorem cells_retain_self (h : ValueHeap T) (p : Nat) (v : T) (n : Nat)
    (hc : h.cells p = some (v, n)) : (h.retain p).cells p = some (v, n + 1) := by
  simp [retain, hc]

theorem cells_write_self (h : ValueHeap T) (p : Nat) (v0 v : T) (n : Nat)
    (hc : h.cells p = some (v0, n)) : (h.write p v).cells p = some (v, n) := by
  simp [write, hc]

theorem cells_release_self (h : ValueHeap T) (p : Nat) (v : T) (n : Nat)
    (hc : h.cells p = some (v, n + 2)) : (h.release p).cells p = some (v, n + 1) := by
  simp [release, hc]

theorem read_of_cells (h : ValueHeap T) (p : Nat) (v : T) (n : Nat)
    (hc : h.cells p = some (v, n)) : h.read p = some v := by
  simp [read, hc]

end ValueHeap

namespace ResourceManager

variable {Key R : Type} [DecidableEq Key] [ToString Key]

theorem get_write_access_free (m : ResourceManager Key R) (k : Key) (sr : SharedResource R)
    (hk : m.resources.lookup k = some sr) (hfree : sr.mutex = SharedMutex.free) :
    m.get_write_access k =
      (AccessResult.granted { resource := sr.resource },
       { resources := m.resources.replace k
          { resource := sr.resource, mutex := { readers := 0, writer := true } } }) := by
  simp [get_write_access, hk, SharedResource.lock_write, SharedMutex.lock, hfree,
    SharedMutex.free]

theorem get_write_access_granted (m m1 : ResourceManager Key R) (k : Key) (g : WriteLock R)
    (h : m.get_write_access k = (AccessResult.granted g, m1)) :
    ∃ sr, m.resources.lookup k = some sr ∧ sr.mutex = SharedMutex.free ∧
      g = { resource := sr.resource } ∧
      m1 = ResourceManager.mk (m.resources.replace k
          { resource := sr.resource, mutex := { readers := 0, writer := true } }) := by
  unfold get_write_access at h
  cases hk : m.resources.lookup k with
  | none => simp [hk] at h
  | some sr =>
    obtain ⟨res, ⟨readers, writer⟩⟩ := sr
    by_cases hfree : writer = false ∧ readers = 0
    · obtain ⟨hw, hr⟩ := hfree
      subst hw
      subst hr
      simp [hk, SharedResource.lock_write, SharedMutex.lock] at h
      exact ⟨_, rfl, rfl, h.1.symm, h.2.symm⟩
    · have hb : (writer || readers != 0) = true := by
        cases writer with
        | true => rfl
        | false =>
          have : readers ≠ 0 := fun hr => hfree ⟨rfl, hr⟩
          simpa using this
      simp [hk, SharedResource.lock_write, SharedMutex.lock, hb] at h

theorem get_read_access_open (m : ResourceManager Key R) (k : Key) (sr : SharedResource R)
    (hk : m.resources.lookup k = some sr) (hw : sr.mutex.writer = false) :
    m.get_read_access k =
      (AccessResult.granted { resource := sr.resource },
       { resources := m.resources.replace k
          { resource := sr.resource,
            mutex := { readers := sr.mutex.readers + 1, writer := false } } }) := by
  simp [get_read_access, hk, SharedResource.lock_read, SharedMutex.lock_shared, hw]

theorem get_read_access_granted (m m1 : ResourceManager Key R) (k : Key) (g : ReadLock R)
    (h : m.get_read_access k = (AccessResult.granted g, m1)) :
    ∃ sr, m.resources.lookup k = some sr ∧ sr.mutex.writer = false ∧
      g = { resource := sr.resource } ∧
      m1 = ResourceManager.mk (m.resources.replace k
          { resource := sr.resource,
            mutex := { readers := sr.mutex.readers + 1, writer := false } }) := by
  cases hk : m.resources.lookup k with
  | none => simp [get_read_access, hk] at h
  | some sr =>
    cases hw : sr.mutex.writer with
    | true => simp [get_read_access, hk, SharedResource.lock_read, SharedMutex.lock_shared, hw] at h
    | false =>
      rw [get_read_access_open m k sr hk hw] at h
      simp only [Prod.mk.injEq, AccessResult.granted.injEq] at h
      exact ⟨sr, rfl, hw, h.1.symm, h.2.symm⟩

end ResourceManager

namespace ResourceWorld

variable {Key T : Type} [DecidableEq Key] [ToString Key]

theorem world_write_access_granted (w w1 : ResourceWorld Key T) (k : Key) (g : WriteLock Nat)
    (h : w.get_write_access k = (AccessResult.granted g, w1)) :
    w.manager.get_write_access k = (AccessResult.granted g, w1.manager) ∧
    w1.heap = w.heap.retain g.resource := by
  unfold get_write_access at h
  generalize w.manager.get_write_access k = r at h
  obtain ⟨r1, m⟩ := r
  cases r1 with
  | granted g1 =>
    simp only [Prod.mk.injEq, AccessResult.granted.injEq] at h
    obtain ⟨h1, h2⟩ := h
    subst h1
    subst h2
    exact ⟨rfl, rfl⟩
  | raised e => simp at h
  | blocked => simp at h

theorem world_read_access_granted (w w1 : ResourceWorld Key T) (k : Key) (g : ReadLock Nat)
    (h : w.get_read_access k = (AccessResult.granted g, w1)) :
    w.manager.get_read_access k = (AccessResult.granted g, w1.manager) ∧
    w1.heap = w.heap.retain g.resource := by
  unfold get_read_access at h
  generalize w.manager.get_read_access k = r at h
  obtain ⟨r1, m⟩ := r
  cases r1 with
  | granted g1 =>
    simp only [Prod.mk.injEq, AccessResult.granted.injEq] at h
    obtain ⟨h1, h2⟩ := h
    subst h1
    subst h2
    exact ⟨rfl, rfl⟩
  | raised e => simp at h
  | blocked => simp at h

end ResourceWorld

/-! ## Theorems on guards and the values they give access to -/

/-- C11: write-then-read round trip.  For a key `k` whose entry owns a live
value: if the lock of the entry is free, `get_write_access(k)` returns a guard;
and whenever it returns a guard, assigning `v` through it and letting it go out
of scope leaves the lock of the entry free, so that `get_read_access(k)` returns
a guard at once, and that guard dereferences to `v`. -/
theorem write_then_read_round_trip {Key T : Type} [DecidableEq Key] [ToString Key]
    (w : ResourceWorld Key T) (k : Key) (sr : SharedResource Nat) (v v0 : T) (n : Nat)
    (hk : w.manager.resources.lookup k = some sr)
    (hcell : w.heap.cells sr.resource = some (v0, n + 1)) :
    (sr.mutex = SharedMutex.free →
      ∃ w1, w.get_write_access k = (AccessResult.granted { resource := sr.resource }, w1)) ∧
    ∀ g w1, w.get_write_access k = (AccessResult.granted g, w1) →
      ∃ w2, ResourceWorld.release_write { w1 with heap := g.assign w1.heap v } k g = some w2 ∧
        w2.manager.resources.lookup k = some (SharedResource.new sr.resource) ∧
        ∃ g2 w3, w2.get_read_access k = (AccessResult.granted g2, w3) ∧
          g2.deref w3.heap.read = some v := by
  have hmem : k ∈ w.manager.resources := AList.mem_of_lookup_eq_some k sr _ hk
  constructor
  · intro hfree
    have h1 := ResourceManager.get_write_access_free w.manager k sr hk hfree
    have h2 : w.get_write_access k = (AccessResult.granted { resource := sr.resource },
        { manager := ResourceManager.mk (w.manager.resources.replace k
            { resource := sr.resource, mutex := { readers := 0, writer := true } }),
          heap := w.heap.retain sr.resource }) := by
      simp only [ResourceWorld.get_write_access, h1]
    exact ⟨_, h2⟩
  · intro g w1 hacq
    obtain ⟨hm, hheap⟩ := ResourceWorld.world_write_access_granted w w1 k g hacq
    obtain ⟨sr1, hk1, hfree, hg, hm1⟩ := ResourceManager.get_write_access_granted _ _ k g hm
    rw [hk] at hk1
    cases hk1
    subst hg
    -- the entry after the write guard was made
    have hl1 : w1.manager.resources.lookup k
        = some { resource := sr.resource, mutex := { readers := 0, writer := true } } := by
      rw [hm1]
      exact AList.lookup_replace_self k _ _ hmem
    have hmem1 : k ∈ w1.manager.resources := AList.mem_of_lookup_eq_some k _ _ hl1
    -- the value cell: one more owner, then the assignment, then one owner less
    have hc1 : w1.heap.cells sr.resource = some (v0, n + 2) := by
      rw [hheap]
      exact ValueHeap.cells_retain_self _ _ _ _ hcell
    have hc2 : (w1.heap.write sr.resource v).cells sr.resource = some (v, n + 2) :=
      ValueHeap.cells_write_self _ _ _ _ _ hc1
    have hc3 : ((w1.heap.write sr.resource v).release sr.resource).cells sr.resource
        = some (v, n + 1) := ValueHeap.cells_release_self _ _ _ _ hc2
    refine ⟨{ manager := ResourceManager.mk (w1.manager.resources.replace k
                { resource := sr.resource, mutex := { readers := 0, writer := false } }),
              heap := (w1.heap.write sr.resource v).release sr.resource }, ?_, ?_, ?_⟩
    · simp [ResourceWorld.release_write, hl1, WriteLock.assign, SharedResource.release_write,
        SharedMutex.unlock]
    · exact AList.lookup_replace_self k _ _ hmem1
    · have hl2 : (w1.manager.resources.replace k
          { resource := sr.resource, mutex := { readers := 0, writer := false } }).lookup k
          = some { resource := sr.resource, mutex := { readers := 0, writer := false } } :=
        AList.lookup_replace_self k _ _ hmem1
      have hr := ResourceManager.get_read_access_open
        (ResourceManager.mk (w1.manager.resources.replace k
          { resource := sr.resource, mutex := { readers := 0, writer := false } }))
        k _ hl2 rfl
      refine ⟨{ resource := sr.resource },
        { manager := ResourceManager.mk ((w1.manager.resources.replace k
            { resource := sr.resource, mutex := { readers := 0, writer := false } }).replace k
            { resource := sr.resource, mutex := { readers := 1, writer := false } }),
          heap := ((w1.heap.write sr.resource v).release sr.resource).retain sr.resource },
        ?_, ?_⟩
      · simp only [ResourceWorld.get_read_access, hr]
      · simp only [ReadLock.deref]
        exact ValueHeap.read_of_cells _ _ _ _ (ValueHeap.cells_retain_self _ _ _ _ hc3)

/-- Witness for C11, the test `AcessoBasico`: on the fixture, write access to
`"data"` is granted, and after assigning 42 and releasing the guard, read
access is granted with a guard that dereferences to 42. -/
theorem write_then_read_round_trip_witness :
    (∃ w1, ResourceWorld.fixture.get_write_access "data"
      = (AccessResult.granted { resource := 0 }, w1)) ∧
    ∃ w2, ResourceWorld.release_write
        { (ResourceWorld.fixture.get_write_access "data").2 with
          heap := WriteLock.assign { resource := 0 }
            (ResourceWorld.fixture.get_write_access "data").2.heap 42 }
        "data" { resource := 0 } = some w2 ∧
      w2.manager.resources.lookup "data" = some (SharedResource.new 0) ∧
      ∃ g2 w3, w2.get_read_access "data" = (AccessResult.granted g2, w3) ∧
        g2.deref w3.heap.read = some 42 :=
  ⟨(write_then_read_round_trip ResourceWorld.fixture "data" (SharedResource.new 0) 42 0 0
      (by decide) (by decide)).1 rfl,
   (write_then_read_round_trip ResourceWorld.fixture "data" (SharedResource.new 0) 42 0 0
      (by decide) (by decide)).2 { resource := 0 }
      (ResourceWorld.fixture.get_write_access "data").2 rfl⟩

/-- C13 (as stated, refuted): on the fixture, a `ReadLock` on `"data"` is
returned and dereferences to 0; the assignment `*read_lock = 42` through its
dereference changes the value, which the guard then dereferences to 42. -/
theorem readLock_assignment_changes_value :
    (ResourceWorld.fixture.get_read_access "data").1
      = AccessResult.granted { resource := 0 } ∧
    ReadLock.deref (ResourceWorld.fixture.get_read_access "data").2.heap.read
      { resource := 0 } = some 0 ∧
    ReadLock.deref
      (ReadLock.assign { resource := 0 }
        (ResourceWorld.fixture.get_read_access "data").2.heap 42).read
      { resource := 0 } = some 42 := by
  decide

/-- C13 (amended): a `ReadLock` and a `WriteLock` give the same mutable access
and differ in the hold on the mutex.  For a resource whose pointer is live: a
guard returned by `lock_read` or by `lock_write` holds the pointer of the
resource; an assignment through either stores the value there, the guard then
dereferences to it, the two assignments are the same and no other object
changes.  `lock_read` is granted exactly when no writer holds the mutex and
takes a shared hold, under which further readers are admitted and a writer is
not; `lock_write` is granted exactly when the mutex is free and takes the
exclusive hold, under which neither is admitted. -/
theorem guard_assignment_stores {T : Type} (sr : SharedResource Nat) (h : ValueHeap T)
    (v v0 : T) (n : Nat) (hcell : h.cells sr.resource = some (v0, n)) :
    (sr.lock_read.isSome = !sr.mutex.writer) ∧
    (sr.lock_write.isSome = (!sr.mutex.writer && sr.mutex.readers == 0)) ∧
    (∀ g sr1, sr.lock_read = some (g, sr1) →
      g.resource = sr.resource ∧
      sr1.mutex = { readers := sr.mutex.readers + 1, writer := false } ∧
      sr1.lock_read.isSome = true ∧ sr1.lock_write = none ∧
      g.deref (g.assign h v).read = some v) ∧
    (∀ g sr2, sr.lock_write = some (g, sr2) →
      g.resource = sr.resource ∧
      sr2.mutex = { readers := 0, writer := true } ∧
      sr2.lock_read = none ∧ sr2.lock_write = none ∧
      g.deref (g.assign h v).read = some v) ∧
    (∀ (gr : ReadLock Nat) (gw : WriteLock Nat), gr.resource = sr.resource →
      gw.resource = sr.resource →
      gr.assign h v = gw.assign h v ∧
      ∀ q, q ≠ sr.resource → (gr.assign h v).read q = h.read q) := by
  have hc := ValueHeap.cells_write_self h sr.resource v0 v n hcell
  have hread : (h.write sr.resource v).read sr.resource = some v :=
    ValueHeap.read_of_cells _ _ _ _ hc
  obtain ⟨res, ⟨readers, writer⟩⟩ := sr
  refine ⟨?_, ?_, ?_, ?_, ?_⟩
  · cases writer <;> simp [SharedResource.lock_read, SharedMutex.lock_shared]
  · cases writer
    · by_cases hr : readers = 0
      · simp [SharedResource.lock_write, SharedMutex.lock, hr]
      · simp [SharedResource.lock_write, SharedMutex.lock, hr]
    · simp [SharedResource.lock_write, SharedMutex.lock]
  · intro g sr1 hl
    cases writer with
    | true => simp [SharedResource.lock_read, SharedMutex.lock_shared] at hl
    | false =>
      simp only [SharedResource.lock_read, SharedMutex.lock_shared, Bool.false_eq_true,
        if_false, Option.some.injEq, Prod.mk.injEq] at hl
      obtain ⟨hg, hs⟩ := hl
      subst hg
      subst hs
      refine ⟨rfl, rfl, ?_, ?_, hread⟩
      · simp [SharedResource.lock_read, SharedMutex.lock_shared]
      · simp [SharedResource.lock_write, SharedMutex.lock]
  · intro g sr2 hl
    by_cases hfree : writer = false ∧ readers = 0
    · obtain ⟨hw, hr⟩ := hfree
      subst hw
      subst hr
      simp only [SharedResource.lock_write, SharedMutex.lock, Bool.false_or, bne_self_eq_false,
        Bool.false_eq_true, if_false, Option.some.injEq, Prod.mk.injEq] at hl
      obtain ⟨hg, hs⟩ := hl
      subst hg
      subst hs
      refine ⟨rfl, rfl, ?_, ?_, hread⟩
      · simp [SharedResource.lock_read, SharedMutex.lock_shared]
      · simp [SharedResource.lock_write, SharedMutex.lock]
    · have hb : (writer || readers != 0) = true := by
        cases writer with
        | true => rfl
        | false =>
          have : readers ≠ 0 := fun hr => hfree ⟨rfl, hr⟩
          simpa using this
      simp [SharedResource.lock_write, SharedMutex.lock, hb] at hl
  · intro gr gw hgr hgw
    simp only at hgr hgw
    refine ⟨?_, ?_⟩
    · simp [ReadLock.assign, WriteLock.assign, hgr, hgw]
    · intro q hq
      simp only at hcell
      simp [ReadLock.assign, hgr, ValueHeap.write, hcell, ValueHeap.read, Function.update, hq]

/-- Witness for C13 (amended), on the entry of `"data"` in the fixture: the
guard of `lock_read` takes a shared hold and an assignment of 42 through it is
what the guard then dereferences to; the guard of `lock_write` takes the
exclusive hold; `"config"` keeps its value. -/
theorem guard_assignment_stores_witness :
    ((SharedResource.new 0).lock_read).map (fun r => r.2.mutex)
      = some { readers := 1, writer := false } ∧
    ReadLock.deref (ReadLock.assign { resource := 0 } ResourceWorld.fixture.heap 42).read
      { resource := 0 } = some 42 ∧
    ((SharedResource.new 0).lock_write).map (fun r => r.2.mutex)
      = some { readers := 0, writer := true } ∧
    (ReadLock.assign { resource := 0 } ResourceWorld.fixture.heap 42).read 1
      = ResourceWorld.fixture.heap.read 1 := by
  obtain ⟨_, _, h3, h4, h5⟩ := guard_assignment_stores (SharedResource.new 0)
    ResourceWorld.fixture.heap 42 0 1 (by decide)
  obtain ⟨_, hm1, _, _, hd1⟩ := h3 { resource := 0 }
    { resource := 0, mutex := { readers := 1, writer := false } } rfl
  obtain ⟨_, hm2, _, _, _⟩ := h4 { resource := 0 }
    { resource := 0, mutex := { readers := 0, writer := true } } rfl
  exact ⟨rfl, hd1, rfl, (h5 { resource := 0 } { resource := 0 } rfl rfl).2 1 (by decide)⟩

namespace ResourceWorld

variable {Key T : Type} [DecidableEq Key] [ToString Key]

theorem remove_resource_held_read (w w1 : ResourceWorld Key T) (k : Key) (g : ReadLock Nat)
    (h : w.get_read_access k = (AccessResult.granted g, w1)) :
    w1.remove_resource k = none := by
  obtain ⟨hm, _⟩ := world_read_access_granted w w1 k g h
  obtain ⟨sr, hk, _, _, hm1⟩ := ResourceManager.get_read_access_granted _ _ k g hm
  have hmem : k ∈ w.manager.resources := AList.mem_of_lookup_eq_some k sr _ hk
  have hl1 : w1.manager.resources.lookup k
      = some { resource := sr.resource,
               mutex := { readers := sr.mutex.readers + 1, writer := false } } := by
    rw [hm1]
    exact AList.lookup_replace_self k _ _ hmem
  simp [remove_resource, hl1, SharedMutex.owned]

theorem remove_resource_held_write (w w1 : ResourceWorld Key T) (k : Key) (g : WriteLock Nat)
    (h : w.get_write_access k = (AccessResult.granted g, w1)) :
    w1.remove_resource k = none := by
  obtain ⟨hm, _⟩ := world_write_access_granted w w1 k g h
  obtain ⟨sr, hk, _, _, hm1⟩ := ResourceManager.get_write_access_granted _ _ k g hm
  have hmem : k ∈ w.manager.resources := AList.mem_of_lookup_eq_some k sr _ hk
  have hl1 : w1.manager.resources.lookup k
      = some { resource := sr.resource, mutex := { readers := 0, writer := true } } := by
    rw [hm1]
    exact AList.lookup_replace_self k _ _ hmem
  simp [remove_resource, hl1, SharedMutex.owned]

end ResourceWorld

/-- C15 (the code at the failing input): in a manager with `int` keys,
`get_read_access(1)` returns a `ReadLock` that dereferences to 0; the value now
has two owners, the entry and the guard, and the mutex of the entry is held in
shared mode by the guard.  `remove_resource(1)` with the guard alive destroys
that mutex while it is owned, which is undefined; and with the entry gone the
scope exit of the guard has no mutex left to unlock.  Without a guard alive the
same removal is defined. -/
theorem removal_destroys_held_mutex :
    (ResourceWorld.intKeyed.get_read_access 1).1 = AccessResult.granted { resource := 0 } ∧
    ReadLock.deref (ResourceWorld.intKeyed.get_read_access 1).2.heap.read
      { resource := 0 } = some 0 ∧
    (ResourceWorld.intKeyed.get_read_access 1).2.heap.cells 0 = some (0, 2) ∧
    (ResourceWorld.intKeyed.get_read_access 1).2.manager.resources.lookup 1
      = some { resource := 0, mutex := { readers := 1, writer := false } } ∧
    ((ResourceWorld.intKeyed.get_read_access 1).2.remove_resource 1).isNone = true ∧
    (ResourceWorld.release_read
      { (ResourceWorld.intKeyed.get_read_access 1).2 with
        manager := (ResourceWorld.intKeyed.get_read_access 1).2.manager.remove_resource 1 }
      1 { resource := 0 }).isNone = true ∧
    (ResourceWorld.intKeyed.remove_resource 1).isSome = true := by
  decide

/-! ## Theorems on the worker loop -/

namespace ManagerSystem

variable {Key R : Type} [DecidableEq Key] [ToString Key]

end ManagerSystem

